import Mathlib

/-
  Verification development for the xgrammar structured-output constraint engine.

  Shallow embedding of the grammar pipeline, the structural-tag front end, the
  JSON-schema parser front end, the Unicode FSM lowering and the token-mask
  computer, translated from the C++ sources.  Byte strings are lists of byte
  values (Nat), machine integers are Nat/Int with explicit wrapping where the
  C++ relies on it, fallible code returns explicit result types, and external
  collaborators (picojson, the tokenizer, the Earley parser core) appear as
  explicit oracle parameters.
-/

namespace Xgrammar

/-! ### Byte strings -/

/-- Bytes and byte strings; a C++ std::string viewed as a byte sequence. -/
abbrev ByteStr := List Nat

/-! ### Grammar IR: the TagDispatch payload (grammar_impl.h)

The C++ struct Grammar::Impl::TagDispatch has exactly five fields, in this
order (see the aggregate initializer in the structural-tag converter:
TagDispatch{tag_rule_pairs, stop_eos, stop_str, loop_after_dispatch,
excluded_str}). -/

structure TagDispatch where
  tag_rule_pairs : List (ByteStr × Nat)
  stop_eos : Bool
  stop_str : List ByteStr
  loop_after_dispatch : Bool
  excluded_str : List ByteStr
deriving DecidableEq, Repr

namespace SubGrammarAdder

/-- SubGrammarAdderImpl::VisitTagDispatch, translated from the grammar functor
source.  A new TagDispatch is default-constructed; the code then copies
stop_eos, the rule-id-remapped tag_rule_pairs, stop_str and
loop_after_dispatch from the old value.  The excluded_str member is never
assigned, so it keeps its default (empty) value.  The rule-id remapping
new_rule_ids_names[rule_id].first is abstracted as the function newRuleId. -/
def VisitTagDispatch (newRuleId : Nat → Nat) (old : TagDispatch) : TagDispatch :=
  { tag_rule_pairs := old.tag_rule_pairs.map (fun p => (p.1, newRuleId p.2))
    stop_eos := old.stop_eos
    stop_str := old.stop_str
    loop_after_dispatch := old.loop_after_dispatch
    excluded_str := [] }

end SubGrammarAdder

/-- C4: evaluating SubGrammarAdderImpl::VisitTagDispatch at a tag_dispatch
carrying the single exclude "x" (bytes [120]): all other fields are relocated
unchanged (rule ids remapped), but the excludes field of the result is empty
rather than the original non-empty list — the absorbed rule loses its
excludes, contradicting the claim that a tag_dispatch body keeps all of its
fields. -/
theorem subGrammarAdder_drops_tag_dispatch_excludes :
    (SubGrammarAdder.VisitTagDispatch (fun r => r + 7)
      { tag_rule_pairs := [([60], 0)], stop_eos := true, stop_str := [[62]],
        loop_after_dispatch := false, excluded_str := [[120]] }) =
      { tag_rule_pairs := [([60], 7)], stop_eos := true, stop_str := [[62]],
        loop_after_dispatch := false, excluded_str := [] } ∧
    ([[120]] : List ByteStr) ≠ [] := by
  constructor
  · rfl
  · decide

/-! ### JSON values

A minimal model of picojson values.  picojson distinguishes int64 values
(jint) from double values; doubles are modelled as exact rationals (jnum),
which agrees with the C++ comparisons on all exactly representable inputs. -/

inductive JValue where
  | jnull
  | jbool (b : Bool)
  | jint (n : Int)
  | jnum (q : Rat)
  | jstr (s : String)
  | jarr (elems : List JValue)
  | jobj (fields : List (String × JValue))

/-- Lookup in a picojson object (std::map keyed by strings); obj.count(k) > 0
iff this returns some. -/
def objGet (fields : List (String × JValue)) (k : String) : Option JValue :=
  (fields.find? (fun p => p.1 = k)).map (fun p => p.2)

/-- Does the object contain the key (obj.count(k) in the C++). -/
def hasKey (fields : List (String × JValue)) (k : String) : Bool :=
  (objGet fields k).isSome

/-! ### JSON-schema parser (SchemaParser)

SchemaErrorType has exactly the two enumerators of the source. -/

inductive SchemaErrorType where
  | kInvalidSchema
  | kUnsatisfiableSchema
deriving DecidableEq, Repr

/-- Result type mirroring Result<T, SchemaError>ic: TypedError carries the
error kind and a message. -/
inductive SchemaResult (α : Type) where
  | ok (value : α)
  | err (kind : SchemaErrorType) (msg : String)
deriving DecidableEq, Repr

/-- The error kind of a schema result, if any. -/
def SchemaResult.errKind : SchemaResult α → Option SchemaErrorType
  | .ok _ => none
  | .err k _ => some k

instance : Monad SchemaResult where
  pure := SchemaResult.ok
  bind r f := match r with
    | .ok v => f v
    | .err k m => .err k m

/-- INT64_MIN, the default for an absent integer minimum. -/
def int64Min : Int := -(2 ^ 63)

/-- INT64_MAX, the default for an absent integer maximum. -/
def int64Max : Int := 2 ^ 63 - 1

/-- IntegerSpec: the four optional bounds collected by ParseInteger. -/
structure IntegerSpec where
  minimum : Option Int := none
  maximum : Option Int := none
  exclusive_minimum : Option Int := none
  exclusive_maximum : Option Int := none
deriving DecidableEq, Repr

/-- NumberSpec: the four optional bounds collected by ParseNumber (doubles in
the source, exact rationals here). -/
structure NumberSpec where
  minimum : Option Rat := none
  maximum : Option Rat := none
  exclusive_minimum : Option Rat := none
  exclusive_maximum : Option Rat := none

/-- checkAndConvertIntegerBound from ParseInteger: an int64 value is taken
directly; a double must be a whole number (else kInvalidSchema); everything
else is kInvalidSchema.  The XGRAMMAR_CHECK aborts on doubles at the 64-bit
precision boundary terminate the process rather than returning an error and
are not representable in a total model. -/
def checkAndConvertIntegerBound (v : JValue) : SchemaResult Int :=
  match v with
  | .jint n => .ok n
  | .jnum q => if q.den = 1 then .ok q.num
               else .err .kInvalidSchema "Integer constraint must be a whole number"
  | _ => .err .kInvalidSchema "Value must be a number"

/-- Read an optional integer bound field of a schema object. -/
def readIntBound (schema : List (String × JValue)) (k : String) :
    SchemaResult (Option Int) :=
  match objGet schema k with
  | none => .ok none
  | some v => do
      let n ← checkAndConvertIntegerBound v
      pure (some n)

/-- SchemaParser::ParseInteger: collect the four bounds with the overflow
guards on the exclusive bounds, then reject with kUnsatisfiableSchema when the
effective range is empty. -/
def ParseInteger (schema : List (String × JValue)) : SchemaResult IntegerSpec := do
  let minimum ← readIntBound schema "minimum"
  let maximum ← readIntBound schema "maximum"
  let exclusive_minimum ←
    match objGet schema "exclusiveMinimum" with
    | none => pure none
    | some v => do
        let val ← checkAndConvertIntegerBound v
        if val = int64Max then
          SchemaResult.err .kUnsatisfiableSchema "exclusiveMinimum would cause integer overflow"
        else
          pure (some val)
  let exclusive_maximum ←
    match objGet schema "exclusiveMaximum" with
    | none => pure none
    | some v => do
        let val ← checkAndConvertIntegerBound v
        if val = int64Min then
          SchemaResult.err .kUnsatisfiableSchema "exclusiveMaximum would cause integer underflow"
        else
          pure (some val)
  let effective_min0 := minimum.getD int64Min
  let effective_max0 := maximum.getD int64Max
  let effective_min := match exclusive_minimum with
    | some e => max effective_min0 (e + 1)
    | none => effective_min0
  let effective_max := match exclusive_maximum with
    | some e => min effective_max0 (e - 1)
    | none => effective_max0
  if effective_min > effective_max then
    SchemaResult.err .kUnsatisfiableSchema "Invalid range: minimum greater than maximum"
  else
    pure { minimum, maximum, exclusive_minimum, exclusive_maximum }

/-- getDouble from ParseNumber: doubles and int64 values are both read as
numbers. -/
def getDouble (v : JValue) : SchemaResult Rat :=
  match v with
  | .jnum q => .ok q
  | .jint n => .ok (n : Rat)
  | _ => .err .kInvalidSchema "Value must be a number"

/-- Read an optional number bound field of a schema object. -/
def readNumBound (schema : List (String × JValue)) (k : String) :
    SchemaResult (Option Rat) :=
  match objGet schema k with
  | none => .ok none
  | some v => do
      let q ← getDouble v
      pure (some q)

/-- SchemaParser::ParseNumber: collect the four bounds, then reject with
kUnsatisfiableSchema when the effective range is empty.  An absent bound is
±infinity in the source; the comparison effective_min > effective_max is false
whenever either side is infinite, which the Option encoding reproduces. -/
def ParseNumber (schema : List (String × JValue)) : SchemaResult NumberSpec := do
  let minimum ← readNumBound schema "minimum"
  let maximum ← readNumBound schema "maximum"
  let exclusive_minimum ← readNumBound schema "exclusiveMinimum"
  let exclusive_maximum ← readNumBound schema "exclusiveMaximum"
  let effective_min : Option Rat := match minimum, exclusive_minimum with
    | none, e => e
    | m, none => m
    | some m, some e => some (max m e)
  let effective_max : Option Rat := match maximum, exclusive_maximum with
    | none, e => e
    | m, none => m
    | some m, some e => some (min m e)
  let isEmptyRange : Bool := match effective_min, effective_max with
    | some a, some b => decide (a > b)
    | _, _ => false
  if isEmptyRange then
    SchemaResult.err .kUnsatisfiableSchema "Invalid range: minimum greater than maximum"
  else
    pure { minimum, maximum, exclusive_minimum, exclusive_maximum }

/-- Tag summarizing which SchemaSpec variant a successful parse produced.
Variants handled by sub-parsers that are modelled as oracle parameters carry a
description string. -/
inductive SchemaSpecTag where
  | anySpec
  | integerSpec (s : IntegerSpec)
  | numberSpec (s : NumberSpec)
  | booleanSpec
  | nullSpec
  | otherSpec (descr : String)

/-- The sub-parsers of SchemaParser that claim C9 never reaches, supplied as
oracle parameters: $ref, const, enum, anyOf/oneOf, allOf, type arrays,
strings, arrays and objects. -/
structure SchemaSubParsers where
  ParseRef : List (String × JValue) → SchemaResult SchemaSpecTag
  ParseConst : List (String × JValue) → SchemaResult SchemaSpecTag
  ParseEnum : List (String × JValue) → SchemaResult SchemaSpecTag
  ParseAnyOf : List (String × JValue) → SchemaResult SchemaSpecTag
  ParseAllOf : List (String × JValue) → SchemaResult SchemaSpecTag
  ParseTypeArray : List (String × JValue) → SchemaResult SchemaSpecTag
  ParseString : List (String × JValue) → SchemaResult SchemaSpecTag
  ParseArray : List (String × JValue) → SchemaResult SchemaSpecTag
  ParseObject : List (String × JValue) → SchemaResult SchemaSpecTag

/-- Dispatch on a type string, from the tail of SchemaParser::Parse. -/
def dispatchType (subs : SchemaSubParsers) (schema_obj : List (String × JValue))
    (type : String) : SchemaResult SchemaSpecTag :=
  if type = "integer" then do
    let s ← ParseInteger schema_obj
    pure (.integerSpec s)
  else if type = "number" then do
    let s ← ParseNumber schema_obj
    pure (.numberSpec s)
  else if type = "string" then subs.ParseString schema_obj
  else if type = "boolean" then pure .booleanSpec
  else if type = "null" then pure .nullSpec
  else if type = "array" then subs.ParseArray schema_obj
  else if type = "object" then subs.ParseObject schema_obj
  else .err .kInvalidSchema ("Unsupported type \"" ++ type ++ "\"")

/-- SchemaParser::Parse: cache probe, boolean schemas, the object requirement,
then the keyword-dispatch chain in source order.  serialize stands for
picojson's value serialization used in the non-object error message;
ComputeCacheKey and the schema cache are passed explicitly (a fresh parser
starts with an empty cache).  Rule-name hints only influence generated rule
names and are dropped. -/
def SchemaParse (subs : SchemaSubParsers) (serialize : JValue → String)
    (ComputeCacheKey : JValue → String)
    (schema_cache : List (String × SchemaSpecTag)) (schema : JValue)
    (default_type : Option String) : SchemaResult SchemaSpecTag :=
  let cache_key := ComputeCacheKey schema
  match schema_cache.find? (fun p => p.1 = cache_key) with
  | some p => .ok p.2
  | none =>
    match schema with
    | .jbool b =>
        if !b then
          .err .kUnsatisfiableSchema "Schema 'false' cannot accept any value"
        else
          .ok .anySpec
    | .jobj schema_obj =>
        if hasKey schema_obj "$ref" then subs.ParseRef schema_obj
        else if hasKey schema_obj "const" then subs.ParseConst schema_obj
        else if hasKey schema_obj "enum" then subs.ParseEnum schema_obj
        else if hasKey schema_obj "anyOf" || hasKey schema_obj "oneOf" then
          subs.ParseAnyOf schema_obj
        else if hasKey schema_obj "allOf" then subs.ParseAllOf schema_obj
        else if hasKey schema_obj "type" || default_type.isSome then
          match objGet schema_obj "type", default_type with
          | some (.jarr _), _ => subs.ParseTypeArray schema_obj
          | some (.jstr s), _ => dispatchType subs schema_obj s
          | some _, _ => .err .kInvalidSchema "Type should be a string"
          | none, some s => dispatchType subs schema_obj s
          | none, none => .ok .anySpec
        else if hasKey schema_obj "properties" ||
                hasKey schema_obj "additionalProperties" ||
                hasKey schema_obj "unevaluatedProperties" then
          subs.ParseObject schema_obj
        else if hasKey schema_obj "items" || hasKey schema_obj "prefixItems" ||
                hasKey schema_obj "unevaluatedItems" then
          subs.ParseArray schema_obj
        else .ok .anySpec
    | _ =>
        .err .kInvalidSchema
          ("Schema should be an object or bool, but got " ++ serialize schema)

/-- C9: the schema parser reports the dedicated kUnsatisfiableSchema kind —
distinct from kInvalidSchema — for well-formed schemas with empty language:
the boolean schema false, an integer range with minimum greater than maximum,
and a number range with minimum greater than maximum. -/
theorem schemaParser_unsatisfiable_error_kinds
    (subs : SchemaSubParsers) (serialize key : JValue → String)
    (lo hi : Int) (ql qh : Rat) (hIntRange : lo > hi) (hNumRange : ql > qh) :
    SchemaParse subs serialize key [] (JValue.jbool false) none =
      .err .kUnsatisfiableSchema "Schema 'false' cannot accept any value" ∧
    (SchemaParse subs serialize key []
      (JValue.jobj [("type", .jstr "integer"),
                    ("minimum", .jint lo), ("maximum", .jint hi)]) none).errKind =
      some .kUnsatisfiableSchema ∧
    (SchemaParse subs serialize key []
      (JValue.jobj [("type", .jstr "number"),
                    ("minimum", .jnum ql), ("maximum", .jnum qh)]) none).errKind =
      some .kUnsatisfiableSchema ∧
    SchemaErrorType.kUnsatisfiableSchema ≠ SchemaErrorType.kInvalidSchema := by
  refine ⟨rfl, ?_, ?_, by decide⟩
  · have hlt : hi < lo := hIntRange
    simp [SchemaParse, hasKey, objGet, dispatchType, ParseInteger, readIntBound,
      checkAndConvertIntegerBound, bind, int64Min, int64Max, SchemaResult.errKind, hlt]
  · have hlt : qh < ql := hNumRange
    simp [SchemaParse, hasKey, objGet, dispatchType, ParseNumber, readNumBound,
      getDouble, bind, SchemaResult.errKind, hlt]

/-- A trivial instantiation of the oracle sub-parsers, for the witness. -/
def trivialSubParsers : SchemaSubParsers where
  ParseRef _ := .ok (.otherSpec "ref")
  ParseConst _ := .ok (.otherSpec "const")
  ParseEnum _ := .ok (.otherSpec "enum")
  ParseAnyOf _ := .ok (.otherSpec "anyOf")
  ParseAllOf _ := .ok (.otherSpec "allOf")
  ParseTypeArray _ := .ok (.otherSpec "typeArray")
  ParseString _ := .ok (.otherSpec "string")
  ParseArray _ := .ok (.otherSpec "array")
  ParseObject _ := .ok (.otherSpec "object")

/-- Witness for C9 at the boolean schema false, the integer range [3, 1] and
the number range [1/2, 1/3]. -/
theorem schemaParser_unsatisfiable_error_kinds_witness :
    SchemaParse trivialSubParsers (fun _ => "") (fun _ => "") []
      (JValue.jbool false) none =
      .err .kUnsatisfiableSchema "Schema 'false' cannot accept any value" ∧
    (SchemaParse trivialSubParsers (fun _ => "") (fun _ => "") []
      (JValue.jobj [("type", .jstr "integer"),
                    ("minimum", .jint 3), ("maximum", .jint 1)]) none).errKind =
      some .kUnsatisfiableSchema ∧
    (SchemaParse trivialSubParsers (fun _ => "") (fun _ => "") []
      (JValue.jobj [("type", .jstr "number"),
                    ("minimum", .jnum (1/2)), ("maximum", .jnum (1/3))]) none).errKind =
      some .kUnsatisfiableSchema ∧
    SchemaErrorType.kUnsatisfiableSchema ≠ SchemaErrorType.kInvalidSchema := by
  exact schemaParser_unsatisfiable_error_kinds trivialSubParsers (fun _ => "") (fun _ => "")
    3 1 (1/2) (1/3) (by decide) (by norm_num)

/-! ### Structural-tag format trees (structural_tag.h, current implementation)

The Format variant of the current (non-deprecated) structural_tag.cc.  The
analyzer-written private fields (is_unlimited_, detected_end_strs_) are
modelled as ordinary fields; parsing initializes them to false / []. -/

mutual

inductive TagFormat where
  | mk (beginStr : String) (content : Format) (endStrs : List String)

inductive Format where
  | constString (value : String)
  | jsonSchema (json_schema : String) (style : String)
  | anyText (excludes : List String) (detected_end_strs : List String)
  | grammarFmt (grammar : String)
  | regexFmt (pattern : String) (excluded_strs : List String)
  | seqFmt (elements : List Format) (is_unlimited : Bool)
  | orFmt (elements : List Format) (is_unlimited : Bool)
  | tagFmt (t : TagFormat)
  | triggeredTags (triggers : List String) (tags : List TagFormat)
      (excludes : List String) (at_least_one : Bool) (stop_after_first : Bool)
      (detected_end_strs : List String)
  | tagsWithSeparator (tags : List TagFormat) (separator : String)
      (at_least_one : Bool) (stop_after_first : Bool)
      (detected_end_strs : List String)

end

/-- The begin string of a tag. -/
def TagFormat.beginStr : TagFormat → String
  | .mk b _ _ => b

/-- The content of a tag. -/
def TagFormat.content : TagFormat → Format
  | .mk _ c _ => c

/-- The end strings of a tag. -/
def TagFormat.endStrs : TagFormat → List String
  | .mk _ _ e => e

/-! ### Grammar builder (grammar_builder.h)

A tree-valued model of the expression arena: where the C++ builder returns
integer expression ids into an append-only arena, the model represents each
expression by its tree.  Rule ids are indices into the builder's rule list;
AddRuleWithHint appends a rule (the hint-based unique-name generation only
affects rule names and is kept as the raw hint). -/

inductive GExpr where
  | byteString (s : ByteStr)
  | charClass (neg : Bool) (ranges : List (Nat × Nat))
  | charClassStar (neg : Bool) (ranges : List (Nat × Nat))
  | ruleRef (ruleId : Nat)
  | repeatExpr (ruleId : Nat) (minRep : Nat) (maxRep : Nat)
  | emptyStr
  | sequence (elems : List GExpr)
  | choices (elems : List GExpr)
  | tagDispatch (td : TagDispatch)

/-- The byte view of a std::string.  Characters are mapped to their code
points; for the ASCII strings appearing in all concrete inputs below this
coincides with the UTF-8 byte sequence the C++ stores. -/
def strBytes (s : String) : ByteStr :=
  s.toList.map Char.toNat

/-- A byte-string expression built from a Lean string (AddByteString takes the
bytes of the std::string). -/
def byteStringOf (s : String) : GExpr :=
  .byteString (strBytes s)

structure GrammarBuilder where
  rules : List (String × GExpr)

/-- GrammarBuilder.AddRuleWithHint: append a rule, return its id. -/
def GrammarBuilder.AddRuleWithHint (b : GrammarBuilder) (hint : String)
    (body : GExpr) : GrammarBuilder × Nat :=
  ({ rules := b.rules ++ [(hint, body)] }, b.rules.length)

/-- GrammarBuilder.AddEmptyRuleWithHint: reserve a rule id with a placeholder
body to be filled by UpdateRuleBody. -/
def GrammarBuilder.AddEmptyRuleWithHint (b : GrammarBuilder) (hint : String) :
    GrammarBuilder × Nat :=
  ({ rules := b.rules ++ [(hint, GExpr.choices [])] }, b.rules.length)

/-- GrammarBuilder.UpdateRuleBody. -/
def GrammarBuilder.UpdateRuleBody (b : GrammarBuilder) (ruleId : Nat)
    (body : GExpr) : GrammarBuilder :=
  { rules := b.rules.set ruleId ((b.rules.getD ruleId ("", GExpr.choices [])).1, body) }

/-- The body of a rule of the builder. -/
def GrammarBuilder.ruleBody (b : GrammarBuilder) (ruleId : Nat) : GExpr :=
  (b.rules.getD ruleId ("", GExpr.choices [])).2

/-! ### C10: StructuralTagParser::FromJSON and StructuralTagToGrammar
(current implementation)

picojson parsing is out of scope and enters as the oracle value parseJSON
(the outcome of picojson::parse on the input string); ParseFormat, the
analyzer, the converter and the normalizer enter as oracle parameters — each
can only produce invalid-structural-tag errors, exactly as their C++ return
types (Result<_, ISTError> and std::optional<ISTError>) enforce. -/

structure StructuralTagFmt where
  format : Format

/-- The error side of StructuralTagError that StructuralTagToGrammar can
produce: InvalidJSONError or InvalidStructuralTagError, with message. -/
inductive StructuralTagError where
  | invalidJSON (msg : String)
  | invalidStructuralTag (msg : String)
deriving DecidableEq, Repr

/-- StructuralTagParser::ParseStructuralTag: the top-level value must be an
object; a type field, if present, must be the string "structural_tag"; the
format field is required and is parsed by ParseFormat. -/
def ParseStructuralTag (ParseFormat : JValue → Except String Format)
    (value : JValue) : Except String StructuralTagFmt :=
  match value with
  | .jobj obj =>
    let typeOk : Except String Unit :=
      match objGet obj "type" with
      | none => .ok ()
      | some (.jstr s) =>
          if s = "structural_tag" then .ok ()
          else .error "Structural tag's type must be a string \"structural_tag\""
      | some _ => .error "Structural tag's type must be a string \"structural_tag\""
    match typeOk with
    | .error e => .error e
    | .ok () =>
      match objGet obj "format" with
      | none => .error "Structural tag must have a format field"
      | some f =>
        match ParseFormat f with
        | .error e => .error e
        | .ok fmt => .ok { format := fmt }
  | _ => .error "Structural tag must be an object"

/-- StructuralTagParser::FromJSON: a picojson parse failure becomes
InvalidJSONError; everything after that point can only produce
InvalidStructuralTagError. -/
def FromJSON (parseJSON : Except String JValue)
    (ParseFormat : JValue → Except String Format) :
    Except StructuralTagError StructuralTagFmt :=
  match parseJSON with
  | .error err => .error (.invalidJSON ("Failed to parse JSON: " ++ err))
  | .ok value =>
    match ParseStructuralTag ParseFormat value with
    | .error m => .error (.invalidStructuralTag m)
    | .ok st => .ok st

/-- StructuralTagToGrammar (current implementation): parse, analyze, convert,
normalize; the analyzer and converter stages only ever contribute
invalid-structural-tag errors. -/
def StructuralTagToGrammar {G : Type} (parseJSON : Except String JValue)
    (ParseFormat : JValue → Except String Format)
    (Analyze : StructuralTagFmt → Option String)
    (Convert : StructuralTagFmt → Except String G)
    (NormalizerApply : G → G) : Except StructuralTagError G :=
  match FromJSON parseJSON ParseFormat with
  | .error e => .error e
  | .ok structural_tag =>
    match Analyze structural_tag with
    | some m => .error (.invalidStructuralTag m)
    | none =>
      match Convert structural_tag with
      | .error m => .error (.invalidStructuralTag m)
      | .ok g => .ok (NormalizerApply g)

/-- Is the JSON value an object (picojson value.is<picojson::object>()). -/
def JValue.isObj : JValue → Bool
  | .jobj _ => true
  | _ => false

/-- C10: StructuralTagToGrammar returns the invalid-JSON error kind exactly
when JSON parsing itself fails, and returns an invalid-structural-tag error —
not an invalid-JSON error — when the input parses as JSON but its top-level
value is not an object. -/
theorem structuralTagToGrammar_error_kinds {G : Type}
    (parseJSON : Except String JValue)
    (ParseFormat : JValue → Except String Format)
    (Analyze : StructuralTagFmt → Option String)
    (Convert : StructuralTagFmt → Except String G)
    (NormalizerApply : G → G) :
    ((∃ m, StructuralTagToGrammar parseJSON ParseFormat Analyze Convert
        NormalizerApply = .error (.invalidJSON m)) ↔
      ∃ e, parseJSON = .error e) ∧
    (∀ v, parseJSON = .ok v → v.isObj = false →
      StructuralTagToGrammar parseJSON ParseFormat Analyze Convert
        NormalizerApply =
        .error (.invalidStructuralTag "Structural tag must be an object")) := by
  constructor
  · constructor
    · rintro ⟨m, hm⟩
      cases hpj : parseJSON with
      | error e => exact ⟨e, rfl⟩
      | ok v =>
        exfalso
        rw [hpj] at hm
        unfold StructuralTagToGrammar FromJSON at hm
        cases hps : ParseStructuralTag ParseFormat v with
        | error e => simp [hps] at hm
        | ok st =>
          cases hA : Analyze st with
          | some me => simp [hps, hA] at hm
          | none =>
            cases hC : Convert st with
            | error me => simp [hps, hA, hC] at hm
            | ok g => simp [hps, hA, hC] at hm
    · rintro ⟨e, he⟩
      exact ⟨"Failed to parse JSON: " ++ e, by rw [he]; rfl⟩
  · intro v hv hobj
    rw [hv]
    unfold StructuralTagToGrammar FromJSON ParseStructuralTag
    cases v <;> simp_all [JValue.isObj]

/-- Witness for C10: with a parse oracle that fails on "not json" and yields
the array [1] on "[1]", the former input maps to invalid-JSON and the latter
to the invalid-structural-tag object error. -/
theorem structuralTagToGrammar_error_kinds_witness :
    (∃ m, StructuralTagToGrammar (G := Unit) (.error "syntax error")
        (fun _ => .error "no format") (fun _ => none) (fun _ => .ok ()) id =
      .error (.invalidJSON m)) ∧
    (StructuralTagToGrammar (G := Unit) (.ok (JValue.jarr [JValue.jint 1]))
        (fun _ => .error "no format") (fun _ => none) (fun _ => .ok ()) id =
      .error (.invalidStructuralTag "Structural tag must be an object")) := by
  constructor
  · exact (structuralTagToGrammar_error_kinds (G := Unit) (.error "syntax error")
      (fun _ => .error "no format") (fun _ => none) (fun _ => .ok ()) id).1.2
      ⟨"syntax error", rfl⟩
  · exact (structuralTagToGrammar_error_kinds (G := Unit)
      (.ok (JValue.jarr [JValue.jint 1])) (fun _ => .error "no format")
      (fun _ => none) (fun _ => .ok ()) id).2
      (JValue.jarr [JValue.jint 1]) rfl rfl

/-! ### Structural-tag analyzer (StructuralTagAnalyzer, current implementation)

The analyzer is a single post-order walk.  The in-place mutation of the C++ is
modelled by returning the updated format; the stack_ member (used by
DetectEndStrings) is an explicit argument whose head is the most recently
pushed frame; the RecursionGuard of Visit is the explicit fuel argument,
exhausted fuel standing for the guard's depth error. -/

/-- StructuralTagAnalyzer::DetectEndStrings: scan the stack from the top for
the innermost TagFormat frame and return its end strings. -/
def DetectEndStrings : List Format → List String
  | [] => []
  | f :: rest =>
    match f with
    | .tagFmt t => t.endStrs
    | _ => DetectEndStrings rest

/-- StructuralTagAnalyzer::IsUnlimited: any_text, triggered_tags and
tags_with_separator are unlimited; sequence and or carry the analyzer-set
flag; everything else is limited. -/
def IsUnlimited : Format → Bool
  | .anyText _ _ => true
  | .triggeredTags _ _ _ _ _ _ => true
  | .tagsWithSeparator _ _ _ _ _ => true
  | .seqFmt _ u => u
  | .orFmt _ u => u
  | _ => false

/-- StructuralTagAnalyzer::IsExcluded: true exactly for an any_text or
triggered_tags format with a non-empty excludes list. -/
def IsExcluded : Format → Bool
  | .anyText excludes _ => !excludes.isEmpty
  | .triggeredTags _ _ excludes _ _ _ => !excludes.isEmpty
  | _ => false

/-- The loop of VisitSub(SequenceFormat*): visit every element; a non-final
element that is unlimited and not excluded is an error (idx tracks the
position for the message); the returned flag is the sequence's is_unlimited_,
computed from the final element.  The parser guarantees at least one element;
on an empty list the C++ loop bound size()-1 underflows, so that case is
mapped to an error here. -/
def seqElemsLoop (visit : Format → Except String Format) (idx : Nat) :
    List Format → Except String (List Format × Bool)
  | [] => .error "Sequence format must have at least one element"
  | [element] =>
    match visit element with
    | .error e => .error e
    | .ok element' => .ok ([element'], IsUnlimited element' && !IsExcluded element')
  | element :: rest =>
    match visit element with
    | .error e => .error e
    | .ok element' =>
      if IsUnlimited element' && !IsExcluded element' then
        .error ("Only the last element in a sequence can be unlimited, but the " ++
          toString idx ++ "th element of sequence format is unlimited")
      else
        match seqElemsLoop visit (idx + 1) rest with
        | .error e => .error e
        | .ok (rest', u) => .ok (element' :: rest', u)

/-- The loop of VisitSub(OrFormat*): visit every element and accumulate
whether any / all elements are unlimited-and-not-excluded. -/
def orElemsLoop (visit : Format → Except String Format) :
    List Format → Except String (List Format × Bool × Bool)
  | [] => .ok ([], false, true)
  | element :: rest =>
    match visit element with
    | .error e => .error e
    | .ok element' =>
      let is_unlimited := IsUnlimited element' && !IsExcluded element'
      match orElemsLoop visit rest with
      | .error e => .error e
      | .ok (rest', is_any, is_all) =>
        .ok (element' :: rest', is_unlimited || is_any, is_unlimited && is_all)

/-- The tag loop of VisitSub(TriggeredTagsFormat*) and
VisitSub(TagsWithSeparatorFormat*). -/
def tagListLoop (visitTag : TagFormat → Except String TagFormat) :
    List TagFormat → Except String (List TagFormat)
  | [] => .ok []
  | tag :: rest =>
    match visitTag tag with
    | .error e => .error e
    | .ok tag' =>
      match tagListLoop visitTag rest with
      | .error e => .error e
      | .ok rest' => .ok (tag' :: rest')

/-- VisitSub(TagFormat*): visit the content; when the content is unlimited,
require a non-empty end string unless the content is excluded, and move the
end strings out (end.clear()) since the content has absorbed them as detected
end strings. -/
def tagVisitBody (visit : Format → Except String Format) (t : TagFormat) :
    Except String TagFormat :=
  match visit t.content with
  | .error e => .error e
  | .ok content' =>
    let is_content_unlimited := IsUnlimited content'
    if is_content_unlimited then
      let has_non_empty := t.endStrs.any (fun s => !s.isEmpty)
      if !has_non_empty then
        if IsExcluded content' then .ok (.mk t.beginStr content' t.endStrs)
        else .error "When the content is unlimited, at least one end string must be non-empty"
      else .ok (.mk t.beginStr content' [])
    else .ok (.mk t.beginStr content' t.endStrs)

mutual

/-- StructuralTagAnalyzer::Visit / VisitSub: push the node on the stack,
dispatch on the variant, pop.  Fuel models the RecursionGuard. -/
def analyzerVisit : Nat → List Format → Format → Except String Format
  | 0, _, _ => .error "Recursion depth limit exceeded"
  | fuel + 1, stack, f =>
    let stack' := f :: stack
    match f with
    | .constString v => .ok (.constString v)
    | .jsonSchema s style => .ok (.jsonSchema s style)
    | .anyText excludes _ => .ok (.anyText excludes (DetectEndStrings stack'))
    | .grammarFmt g => .ok (.grammarFmt g)
    | .regexFmt p ex => .ok (.regexFmt p ex)
    | .seqFmt elements _ =>
      match seqElemsLoop (analyzerVisit fuel stack') 0 elements with
      | .error e => .error e
      | .ok (elements', u) => .ok (.seqFmt elements' u)
    | .orFmt elements _ =>
      match orElemsLoop (analyzerVisit fuel stack') elements with
      | .error e => .error e
      | .ok (elements', is_any, is_all) =>
        if is_any && !is_all then
          .error ("Now we only support all elements in an or format to be unlimited or " ++
            "all limited, but the or format has both unlimited and limited elements")
        else .ok (.orFmt elements' is_any)
    | .tagFmt t =>
      match tagVisitBody (analyzerVisit fuel stack') t with
      | .error e => .error e
      | .ok t' => .ok (.tagFmt t')
    | .triggeredTags triggers tags excludes alo saf _ =>
      match tagListLoop (analyzerVisitTag fuel stack') tags with
      | .error e => .error e
      | .ok tags' =>
        .ok (.triggeredTags triggers tags' excludes alo saf (DetectEndStrings stack'))
    | .tagsWithSeparator tags sep alo saf _ =>
      match tagListLoop (analyzerVisitTag fuel stack') tags with
      | .error e => .error e
      | .ok tags' =>
        .ok (.tagsWithSeparator tags' sep alo saf (DetectEndStrings stack'))

/-- The Visit overload taking a TagFormat (used for the tags of triggered_tags
and tags_with_separator): push a TagFormat frame, dispatch to the tag body. -/
def analyzerVisitTag : Nat → List Format → TagFormat → Except String TagFormat
  | 0, _, _ => .error "Recursion depth limit exceeded"
  | fuel + 1, stack, t =>
    tagVisitBody (analyzerVisit fuel (Format.tagFmt t :: stack)) t

end

/-- StructuralTagAnalyzer::Analyze. -/
def analyzerAnalyze (fuel : Nat) (st : StructuralTagFmt) :
    Except String StructuralTagFmt :=
  match analyzerVisit fuel [] st.format with
  | .error e => .error e
  | .ok f => .ok { format := f }

/-- The value a visitor produced for a format (the identity on the error case,
which the theorems below exclude by hypothesis). -/
def visitedOf (visit : Format → Except String Format) (f : Format) : Format :=
  match visit f with
  | .ok r => r
  | .error _ => f

/-- The analyzed value of a format. -/
def analyzedFmt (fuel : Nat) (stack : List Format) (f : Format) : Format :=
  visitedOf (analyzerVisit fuel stack) f

theorem seqElemsLoop_error_iff (visit : Format → Except String Format)
    (elements : List Format) :
    ∀ idx : Nat, elements ≠ [] → (∀ e ∈ elements, ∃ r, visit e = .ok r) →
    ((∃ msg, seqElemsLoop visit idx elements = .error msg) ↔
     (∃ e ∈ elements.dropLast,
        IsUnlimited (visitedOf visit e) = true ∧
        IsExcluded (visitedOf visit e) = false)) := by
  induction elements with
  | nil => intro idx hne _; exact absurd rfl hne
  | cons x rest ih =>
    intro idx hne hok
    obtain ⟨rx, hrx⟩ := hok x (by simp)
    have hvx : visitedOf visit x = rx := by simp [visitedOf, hrx]
    cases rest with
    | nil =>
      simp only [seqElemsLoop, hrx, List.dropLast_single]
      constructor
      · rintro ⟨msg, hmsg⟩; cases hmsg
      · rintro ⟨e, he, _⟩; simp at he
    | cons y rest' =>
      simp only [seqElemsLoop, hrx]
      by_cases hcond : (IsUnlimited rx && !IsExcluded rx) = true
      · rw [if_pos hcond]
        have h12 := hcond
        rw [Bool.and_eq_true] at h12
        obtain ⟨h1, h2⟩ := h12
        constructor
        · intro _
          refine ⟨x, by simp, by rw [hvx]; exact h1, by rw [hvx]; simpa using h2⟩
        · intro _; exact ⟨_, rfl⟩
      · rw [if_neg hcond]
        have hiff := ih (idx + 1) (by simp) (fun e he => hok e (by simp [he]))
        have hx0 : ¬ (IsUnlimited rx = true ∧ IsExcluded rx = false) := by
          intro ⟨h1, h2⟩
          exact hcond (by simp [h1, h2])
        constructor
        · rintro ⟨msg, hmsg⟩
          cases hrec : seqElemsLoop visit (idx + 1) (y :: rest') with
          | error e =>
            obtain ⟨e', he', hu, hex⟩ := hiff.mp ⟨e, hrec⟩
            exact ⟨e', by simp [List.dropLast_cons₂]; right; exact he', hu, hex⟩
          | ok p =>
            rw [hrec] at hmsg
            cases hmsg
        · rintro ⟨e, he, hu, hex⟩
          rw [show (x :: y :: rest').dropLast = x :: (y :: rest').dropLast from rfl] at he
          rcases List.mem_cons.mp he with heq | hmem
          · subst heq
            rw [hvx] at hu hex
            exact absurd ⟨hu, hex⟩ hx0
          · obtain ⟨msg, hmsg⟩ := hiff.mpr ⟨e, hmem, hu, hex⟩
            rw [hmsg]
            exact ⟨msg, rfl⟩

/-- C5: the analyzer errors on a sequence format exactly when some non-final
element of the sequence is (after analysis) unlimited and carries no excludes;
a non-final unlimited element with non-empty excludes is allowed, and an
unlimited final element is always allowed (only non-final elements are
examined by the error condition). -/
theorem analyzer_sequence_unlimited_iff (fuel : Nat) (stack : List Format)
    (elements : List Format) (b : Bool) (hne : elements ≠ [])
    (hok : ∀ e ∈ elements,
      ∃ r, analyzerVisit fuel (Format.seqFmt elements b :: stack) e = .ok r) :
    (∃ msg, analyzerVisit (fuel + 1) stack (.seqFmt elements b) = .error msg) ↔
    (∃ e ∈ elements.dropLast,
       IsUnlimited (analyzedFmt fuel (Format.seqFmt elements b :: stack) e) = true ∧
       IsExcluded (analyzedFmt fuel (Format.seqFmt elements b :: stack) e) = false) := by
  have hiff := seqElemsLoop_error_iff
    (analyzerVisit fuel (Format.seqFmt elements b :: stack)) elements 0 hne hok
  constructor
  · rintro ⟨msg, hmsg⟩
    simp only [analyzerVisit] at hmsg
    cases hrec : seqElemsLoop (analyzerVisit fuel (Format.seqFmt elements b :: stack))
        0 elements with
    | error e => exact hiff.mp ⟨e, hrec⟩
    | ok p =>
      rw [hrec] at hmsg
      cases hmsg
  · intro hexists
    obtain ⟨msg, hmsg⟩ := hiff.mpr hexists
    refine ⟨msg, ?_⟩
    simp only [analyzerVisit, hmsg]

/-- Witness for C5: a two-element sequence whose first element is an any_text
without excludes (unlimited, not excluded) is rejected by the analyzer. -/
theorem analyzer_sequence_unlimited_iff_witness :
    ∃ msg, analyzerVisit 3 []
      (.seqFmt [Format.anyText [] [], Format.constString "a"] false) =
      .error msg :=
  (analyzer_sequence_unlimited_iff 2 []
      [Format.anyText [] [], Format.constString "a"] false
      (by simp)
      (fun e he => by
        rcases List.mem_cons.mp he with h | h
        · exact ⟨_, by rw [h]; rfl⟩
        · rcases List.mem_cons.mp h with h2 | h2
          · exact ⟨_, by rw [h2]; rfl⟩
          · simp at h2)).mpr
    ⟨Format.anyText [] [], by simp, by rfl, by rfl⟩

/-! ### Structural-tag grammar converter (current implementation)

StructuralTagGrammarConverter::Visit in the current implementation dispatches
straight to the VisitSub overloads — it has no fingerprint cache.  The
VisitSub overloads whose structure the claims do not touch (json_schema,
grammar and regex compile sub-grammars; tag, triggered_tags and
tags_with_separator build composite rules) are supplied as oracle
parameters. -/

/-- VisitSub(AnyTextFormat) of the current converter, translated from the
source: detected end strings (filtered to the non-empty ones) produce a
tag-dispatch rule stopping on them; otherwise non-empty excludes still
produce a tag-dispatch rule (stop_eos = true) carrying the excludes; only
with neither does the format lower to a char_class_star over the full
Unicode range. -/
def converterVisitAnyText (b : GrammarBuilder) (excludes : List String)
    (detected_end_strs : List String) : GrammarBuilder × Nat :=
  if !detected_end_strs.isEmpty then
    let non_empty_ends := detected_end_strs.filter (fun s => !s.isEmpty)
    let tag_dispatch_expr := GExpr.tagDispatch
      { tag_rule_pairs := [], stop_eos := false,
        stop_str := non_empty_ends.map strBytes,
        loop_after_dispatch := false, excluded_str := excludes.map strBytes }
    b.AddRuleWithHint "any_text" tag_dispatch_expr
  else if excludes.length > 0 then
    let tag_dispatch_expr := GExpr.tagDispatch
      { tag_rule_pairs := [], stop_eos := true, stop_str := [],
        loop_after_dispatch := false, excluded_str := excludes.map strBytes }
    b.AddRuleWithHint "any_text" tag_dispatch_expr
  else
    let any_text_expr := GExpr.charClassStar false [(0, 0x10FFFF)]
    let sequence_expr := GExpr.sequence [any_text_expr]
    let choices_expr := GExpr.choices [sequence_expr]
    b.AddRuleWithHint "any_text" choices_expr

/-- C6 counterexample: an analyzed any_text with no detected end strings but
with the exclude "x" does not lower to a char_class_star rule: the produced
rule body is a tag dispatch (stop_eos, carrying the exclude). -/
theorem converter_anyText_excludes_counterexample :
    ((converterVisitAnyText { rules := [] } ["x"] []).1.ruleBody
        (converterVisitAnyText { rules := [] } ["x"] []).2 =
      GExpr.tagDispatch
        { tag_rule_pairs := [], stop_eos := true, stop_str := [],
          loop_after_dispatch := false, excluded_str := [[120]] }) ∧
    ((converterVisitAnyText { rules := [] } ["x"] []).1.ruleBody
        (converterVisitAnyText { rules := [] } ["x"] []).2 ≠
      GExpr.choices [GExpr.sequence [GExpr.charClassStar false [(0, 0x10FFFF)]]]) := by
  constructor
  · rfl
  · intro h
    rw [show (converterVisitAnyText { rules := [] } ["x"] []).1.ruleBody
        (converterVisitAnyText { rules := [] } ["x"] []).2 =
      GExpr.tagDispatch
        { tag_rule_pairs := [], stop_eos := true, stop_str := [],
          loop_after_dispatch := false, excluded_str := [[120]] } from rfl] at h
    exact GExpr.noConfusion h

/-- C6 (amended): the three-way lowering of an analyzed any_text format.
With detected end strings, the rule is a tag dispatch with no triggers,
stop_strs the non-empty detected ends, loop_after_dispatch false and the
excludes carried through; with no detected ends but non-empty excludes, the
rule is a tag dispatch with stop_eos true carrying the excludes; with
neither, the rule is a char_class_star over [0, 0x10FFFF]. -/
theorem converter_anyText_lowering (b : GrammarBuilder)
    (excludes detected_end_strs : List String) :
    (detected_end_strs ≠ [] →
      (converterVisitAnyText b excludes detected_end_strs).1.ruleBody
          (converterVisitAnyText b excludes detected_end_strs).2 =
        GExpr.tagDispatch
          { tag_rule_pairs := [], stop_eos := false,
            stop_str := (detected_end_strs.filter (fun s => !s.isEmpty)).map strBytes,
            loop_after_dispatch := false,
            excluded_str := excludes.map strBytes }) ∧
    (detected_end_strs = [] → excludes ≠ [] →
      (converterVisitAnyText b excludes detected_end_strs).1.ruleBody
          (converterVisitAnyText b excludes detected_end_strs).2 =
        GExpr.tagDispatch
          { tag_rule_pairs := [], stop_eos := true, stop_str := [],
            loop_after_dispatch := false,
            excluded_str := excludes.map strBytes }) ∧
    (detected_end_strs = [] → excludes = [] →
      (converterVisitAnyText b excludes detected_end_strs).1.ruleBody
          (converterVisitAnyText b excludes detected_end_strs).2 =
        GExpr.choices [GExpr.sequence [GExpr.charClassStar false [(0, 0x10FFFF)]]]) := by
  have hbody : ∀ (hint : String) (body : GExpr),
      (b.AddRuleWithHint hint body).1.ruleBody (b.AddRuleWithHint hint body).2 = body := by
    intro hint body
    simp [GrammarBuilder.AddRuleWithHint, GrammarBuilder.ruleBody, List.getD_eq_getElem?_getD,
      List.getElem?_append_right, le_refl]
  refine ⟨?_, ?_, ?_⟩
  · intro hne
    have hd : detected_end_strs.isEmpty = false := by
      cases detected_end_strs with
      | nil => exact absurd rfl hne
      | cons x xs => rfl
    simp only [converterVisitAnyText, hd, Bool.not_false, if_pos]
    exact hbody _ _
  · intro hd hex
    have hexl : 0 < excludes.length := by
      cases excludes with
      | nil => exact absurd rfl hex
      | cons x xs => simp
    subst hd
    simp only [converterVisitAnyText, List.isEmpty_nil, Bool.not_true, Bool.false_eq_true,
      if_false, if_pos hexl]
    exact hbody _ _
  · intro hd hex
    subst hd; subst hex
    simp only [converterVisitAnyText, List.isEmpty_nil, Bool.not_true, Bool.false_eq_true,
      if_false, List.length_nil, lt_irrefl, if_neg]
    exact hbody _ _

/-- Witness for C6 at the three concrete inputs: detected ends ["z", ""],
excludes ["x"]; no detected ends with excludes ["x"]; and neither. -/
theorem converter_anyText_lowering_witness :
    ((converterVisitAnyText { rules := [] } ["x"] ["z", ""]).1.ruleBody
        (converterVisitAnyText { rules := [] } ["x"] ["z", ""]).2 =
      GExpr.tagDispatch
        { tag_rule_pairs := [], stop_eos := false, stop_str := [[122]],
          loop_after_dispatch := false, excluded_str := [[120]] }) ∧
    ((converterVisitAnyText { rules := [] } ["x"] []).1.ruleBody
        (converterVisitAnyText { rules := [] } ["x"] []).2 =
      GExpr.tagDispatch
        { tag_rule_pairs := [], stop_eos := true, stop_str := [],
          loop_after_dispatch := false, excluded_str := [[120]] }) ∧
    ((converterVisitAnyText { rules := [] } [] []).1.ruleBody
        (converterVisitAnyText { rules := [] } [] []).2 =
      GExpr.choices [GExpr.sequence [GExpr.charClassStar false [(0, 0x10FFFF)]]]) := by
  refine ⟨?_, ?_, ?_⟩
  · exact (converter_anyText_lowering { rules := [] } ["x"] ["z", ""]).1 (by simp)
  · exact (converter_anyText_lowering { rules := [] } ["x"] []).2.1 rfl (by simp)
  · exact (converter_anyText_lowering { rules := [] } [] []).2.2 rfl rfl

/-- The VisitSub overloads of the current converter that the claims do not
examine, supplied as oracles: sub-grammar absorption for json_schema, grammar
and regex, and the composite rules of tag, triggered_tags and
tags_with_separator. -/
structure ConverterOracles where
  visitJsonSchema : GrammarBuilder → String → String → GrammarBuilder × Nat
  visitGrammarFmt : GrammarBuilder → String → GrammarBuilder × Nat
  visitRegexFmt : GrammarBuilder → String → List String →
    Except String (GrammarBuilder × Nat)
  visitTagFmt : GrammarBuilder → TagFormat → Except String (GrammarBuilder × Nat)
  visitTriggeredTags : GrammarBuilder → List String → List TagFormat →
    List String → Bool → Bool → List String → Except String (GrammarBuilder × Nat)
  visitTagsWithSeparator : GrammarBuilder → List TagFormat → String →
    Bool → Bool → List String → Except String (GrammarBuilder × Nat)

/-- The element loop of the current VisitSub(SequenceFormat): visit each
element and collect a rule reference to its rule. -/
def newConvSeqLoop (visit : GrammarBuilder → Format → Except String (GrammarBuilder × Nat))
    (b : GrammarBuilder) : List Format → Except String (GrammarBuilder × List GExpr)
  | [] => .ok (b, [])
  | e :: rest =>
    match visit b e with
    | .error err => .error err
    | .ok (b', sub_rule_id) =>
      match newConvSeqLoop visit b' rest with
      | .error err => .error err
      | .ok (b'', refs) => .ok (b'', GExpr.ruleRef sub_rule_id :: refs)

/-- The element loop of the current VisitSub(OrFormat): visit each element and
collect a singleton sequence containing a rule reference to its rule. -/
def newConvOrLoop (visit : GrammarBuilder → Format → Except String (GrammarBuilder × Nat))
    (b : GrammarBuilder) : List Format → Except String (GrammarBuilder × List GExpr)
  | [] => .ok (b, [])
  | e :: rest =>
    match visit b e with
    | .error err => .error err
    | .ok (b', sub_rule_id) =>
      match newConvOrLoop visit b' rest with
      | .error err => .error err
      | .ok (b'', seqs) => .ok (b'', GExpr.sequence [GExpr.ruleRef sub_rule_id] :: seqs)

/-- StructuralTagGrammarConverter::Visit of the current implementation: plain
dispatch on the variant — no fingerprint, no cache.  Fuel bounds the
recursion depth (the tree depth bounds the actual recursion). -/
def newConverterVisit (oracles : ConverterOracles) :
    Nat → GrammarBuilder → Format → Except String (GrammarBuilder × Nat)
  | 0, _, _ => .error "Recursion depth limit exceeded"
  | fuel + 1, b, f =>
    match f with
    | .constString value =>
      .ok (b.AddRuleWithHint "const_string" (.choices [.sequence [byteStringOf value]]))
    | .jsonSchema json_schema style => .ok (oracles.visitJsonSchema b json_schema style)
    | .grammarFmt grammar => .ok (oracles.visitGrammarFmt b grammar)
    | .regexFmt pattern excluded_strs => oracles.visitRegexFmt b pattern excluded_strs
    | .anyText excludes detected_end_strs =>
      .ok (converterVisitAnyText b excludes detected_end_strs)
    | .seqFmt elements _ =>
      match newConvSeqLoop (newConverterVisit oracles fuel) b elements with
      | .error err => .error err
      | .ok (b', rule_ref_ids) =>
        .ok (b'.AddRuleWithHint "sequence" (.choices [.sequence rule_ref_ids]))
    | .orFmt elements _ =>
      match newConvOrLoop (newConverterVisit oracles fuel) b elements with
      | .error err => .error err
      | .ok (b', sequence_ids) =>
        .ok (b'.AddRuleWithHint "or" (.choices sequence_ids))
    | .tagFmt t => oracles.visitTagFmt b t
    | .triggeredTags triggers tags excludes alo saf detected =>
      oracles.visitTriggeredTags b triggers tags excludes alo saf detected
    | .tagsWithSeparator tags sep alo saf detected =>
      oracles.visitTagsWithSeparator b tags sep alo saf detected

/-- A trivial oracle instantiation for concrete evaluation. -/
def trivialConverterOracles : ConverterOracles where
  visitJsonSchema b _ _ := b.AddRuleWithHint "json_schema" (.choices [])
  visitGrammarFmt b _ := b.AddRuleWithHint "grammar" (.choices [])
  visitRegexFmt b _ _ := .ok (b.AddRuleWithHint "regex" (.choices []))
  visitTagFmt b _ := .ok (b.AddRuleWithHint "tag" (.choices []))
  visitTriggeredTags b _ _ _ _ _ _ := .ok (b.AddRuleWithHint "triggered_tags" (.choices []))
  visitTagsWithSeparator b _ _ _ _ _ := .ok (b.AddRuleWithHint "tags_with_separator" (.choices []))

/-- C7 counterexample: in the current converter, a sequence of two identical
const_string subtrees produces two distinct rule ids (0 and 1) — the second
occurrence creates a fresh rule rather than returning a memoized id, so its
body references rule 0 and rule 1 instead of rule 0 twice. -/
theorem newConverter_no_memoization_counterexample :
    newConverterVisit trivialConverterOracles 2 { rules := [] }
        (.seqFmt [Format.constString "x", Format.constString "x"] false) =
      .ok ({ rules :=
        [("const_string", GExpr.choices [GExpr.sequence [GExpr.byteString [120]]]),
         ("const_string", GExpr.choices [GExpr.sequence [GExpr.byteString [120]]]),
         ("sequence", GExpr.choices [GExpr.sequence
            [GExpr.ruleRef 0, GExpr.ruleRef 1]])] }, 2) ∧
    GExpr.ruleRef 0 ≠ GExpr.ruleRef 1 := by
  constructor
  · rfl
  · intro h
    cases h

/-! ### Structural-tag grammar converter (deprecated implementation)

The deprecated converter of the first revision memoizes Visit results by a
fingerprint (FormatFingerprinter::Compute, the canonical serialization of the
Format including analyzer-derived fields, supplied here as the parameter
Compute) hashed with 64-bit FNV-1a into buckets of (fingerprint, rule id)
pairs.  The VisitSub dispatch is supplied as a parameter since the memo logic
is independent of it. -/

/-- FnvaHash from the deprecated converter: 64-bit FNV-1a over the bytes of
the fingerprint string. -/
def FnvaHash (s : ByteStr) : Nat :=
  s.foldl (fun hash c => ((hash ^^^ c) * 1099511628211) % 2 ^ 64) 14695981039346656037

/-- The deprecated converter's mutable state: the builder and the
fingerprint cache (hash → bucket of (fingerprint, rule id) entries, in
insertion order). -/
structure OldConvState where
  builder : GrammarBuilder
  fingerprint_cache : List (Nat × List (String × Nat))

/-- Appending an entry to fingerprint_cache_[hash]. -/
def cacheInsert (cache : List (Nat × List (String × Nat))) (hash : Nat)
    (fingerprint : String) (rule_id : Nat) : List (Nat × List (String × Nat)) :=
  if cache.any (fun p => p.1 = hash) then
    cache.map (fun p => if p.1 = hash then (p.1, p.2 ++ [(fingerprint, rule_id)]) else p)
  else
    cache ++ [(hash, [(fingerprint, rule_id)])]

/-- The cache probe of the deprecated Visit: find the bucket of the hash, then
scan it for an entry whose full fingerprint matches. -/
def cacheLookup (cache : List (Nat × List (String × Nat))) (hash : Nat)
    (fingerprint : String) : Option Nat :=
  match cache.find? (fun p => p.1 = hash) with
  | some bucket => (bucket.2.find? (fun entry => entry.1 = fingerprint)).map (fun e => e.2)
  | none => none

/-- StructuralTagGrammarConverter::Visit of the deprecated implementation:
compute the fingerprint, probe the cache (returning the memoized rule id on a
full fingerprint match), otherwise run VisitSub and record the fresh rule id
under the fingerprint. -/
def oldConverterVisit (Compute : Format → String)
    (visitSub : OldConvState → Format → Except String (OldConvState × Nat))
    (st : OldConvState) (format : Format) : Except String (OldConvState × Nat) :=
  let fingerprint := Compute format
  let hash := FnvaHash (strBytes fingerprint)
  match cacheLookup st.fingerprint_cache hash fingerprint with
  | some rule_id => .ok (st, rule_id)
  | none =>
    match visitSub st format with
    | .error e => .error e
    | .ok (st', rule_id) =>
      .ok ({ st' with fingerprint_cache :=
               cacheInsert st'.fingerprint_cache hash fingerprint rule_id }, rule_id)

theorem cacheLookup_insert_self (cache : List (Nat × List (String × Nat)))
    (hash : Nat) (fp : String) (rule_id : Nat)
    (hmiss : cacheLookup cache hash fp = none) :
    cacheLookup (cacheInsert cache hash fp rule_id) hash fp = some rule_id := by
  unfold cacheLookup cacheInsert
  by_cases hb : cache.any (fun p => p.1 = hash)
  · rw [if_pos hb]
    obtain ⟨bucket, hfind⟩ : ∃ bucket, cache.find? (fun p => p.1 = hash) = some bucket := by
      rcases List.any_eq_true.mp hb with ⟨p, hp, hph⟩
      cases hf : cache.find? (fun p => p.1 = hash) with
      | some b => exact ⟨b, rfl⟩
      | none =>
        have := List.find?_eq_none.mp hf p hp
        simp_all
    have hbh : bucket.1 = hash := by
      have := List.find?_some hfind
      simpa using this
    have hnone : bucket.2.find? (fun entry => entry.1 = fp) = none := by
      unfold cacheLookup at hmiss
      rw [hfind] at hmiss
      simpa using hmiss
    have hmap : (cache.map (fun p => if p.1 = hash then
        (p.1, p.2 ++ [(fp, rule_id)]) else p)).find? (fun p => p.1 = hash) =
        some (bucket.1, bucket.2 ++ [(fp, rule_id)]) := by
      clear hmiss hnone hb hbh
      induction cache with
      | nil => simp at hfind
      | cons c cs ih =>
        by_cases hc : c.1 = hash
        · rw [List.find?_cons_of_pos _ (by simpa using hc)] at hfind
          cases hfind
          simp only [List.map_cons, if_pos hc]
          rw [List.find?_cons_of_pos _ (by simpa using hc)]
        · rw [List.find?_cons_of_neg _ (by simpa using hc)] at hfind
          simp only [List.map_cons, if_neg hc]
          rw [List.find?_cons_of_neg _ (by simpa using hc)]
          exact ih hfind
    rw [hmap]
    simp only [List.find?_append, hnone, Option.none_orElse]
    rw [List.find?_cons_of_pos _ (by simp)]
    simp
  · rw [if_neg hb]
    have hfnone : cache.find? (fun p => p.1 = hash) = none := by
      cases hf : cache.find? (fun p => p.1 = hash) with
      | none => rfl
      | some b =>
        have h1 := List.find?_some hf
        have h2 := List.mem_of_find?_eq_some hf
        exfalso
        exact hb (List.any_eq_true.mpr ⟨b, h2, h1⟩)
    simp only [List.find?_append, hfnone, Option.none_orElse]
    rw [List.find?_cons_of_pos _ (by simp)]
    simp [cacheLookup]

/-- C7 (amended): in the deprecated converter, memoization by fingerprint
makes identical canonical serializations share a rule id: after a visit of a
format f₁ succeeds with rule id r, a visit of any format f₂ with the same
canonical serialization returns the same rule id r without touching the
state (no fresh rules).  The hypothesis hsub_miss states that VisitSub does
not itself register the parent's fingerprint — true of the real converter,
whose recursive Visit calls only register fingerprints of strict subtrees,
which serialize differently from the whole tree. -/
theorem oldConverter_memoizes_by_fingerprint (Compute : Format → String)
    (visitSub : OldConvState → Format → Except String (OldConvState × Nat))
    (st st₁ : OldConvState) (f₁ f₂ : Format) (r : Nat)
    (hfirst : oldConverterVisit Compute visitSub st f₁ = .ok (st₁, r))
    (hfp : Compute f₂ = Compute f₁)
    (hsub_miss : ∀ st' r', visitSub st f₁ = .ok (st', r') →
      cacheLookup st'.fingerprint_cache
        (FnvaHash (strBytes (Compute f₁))) (Compute f₁) = none) :
    oldConverterVisit Compute visitSub st₁ f₂ = .ok (st₁, r) := by
  simp only [oldConverterVisit] at hfirst ⊢
  rw [hfp]
  cases hlook : cacheLookup st.fingerprint_cache
      (FnvaHash (strBytes (Compute f₁))) (Compute f₁) with
  | some rule_id =>
    rw [hlook] at hfirst
    cases hfirst
    rw [hlook]
  | none =>
    rw [hlook] at hfirst
    cases hsub : visitSub st f₁ with
    | error e => rw [hsub] at hfirst; cases hfirst
    | ok p =>
      rw [hsub] at hfirst
      cases hfirst
      have hmiss' := hsub_miss p.1 p.2 (by rw [hsub])
      simp only [cacheLookup_insert_self p.1.fingerprint_cache
        (FnvaHash (strBytes (Compute f₁))) (Compute f₁) p.2 hmiss']

/-- A simple fingerprint for the witness: serialize const_string by value. -/
def memoWitnessCompute (f : Format) : String :=
  match f with
  | .constString v => v
  | _ => "?"

/-- A simple VisitSub for the witness: add a const_string rule. -/
def memoWitnessVisitSub (st : OldConvState) (_ : Format) :
    Except String (OldConvState × Nat) :=
  .ok ({ st with builder :=
      (st.builder.AddRuleWithHint "const_string"
        (.choices [.sequence [byteStringOf "x"]])).1 },
    st.builder.rules.length)

/-- The deprecated converter's state after the first visit of
const_string "x" from the empty state. -/
def memoWitnessState : OldConvState :=
  { builder := { rules := [("const_string",
      GExpr.choices [GExpr.sequence [GExpr.byteString [120]]])] },
    fingerprint_cache := [(FnvaHash (strBytes "x"), [("x", 0)])] }

/-- Witness for C7's amended claim: two const_string "x" subtrees under a
fingerprint that serializes the value; the second visit returns the first
visit's rule id 0 with the state unchanged. -/
theorem oldConverter_memoizes_by_fingerprint_witness :
    oldConverterVisit memoWitnessCompute memoWitnessVisitSub memoWitnessState
      (Format.constString "x") = .ok (memoWitnessState, 0) := by
  exact oldConverter_memoizes_by_fingerprint memoWitnessCompute memoWitnessVisitSub
    { builder := { rules := [] }, fingerprint_cache := [] } memoWitnessState
    (Format.constString "x") (Format.constString "x") 0 (by rfl) rfl
    (by
      intro st' r' h
      injection h with h1
      injection h1 with h2 h3
      rw [← h2]
      rfl)

/-! ### Structure normalizer (StructureNormalizerImpl)

The normalizer's builder tracks, per rule, a name, a body and an optional
look-ahead (the C++ arena's expression ids are again replaced by expression
trees).  AddEmptyRule reserves a placeholder body; helper rules created
during normalization are appended.  The recursion over expression trees is
fueled; all theorems are of the form "whenever the normalizer returns, the
result is in normal form", so fuel only bounds the modelled recursion
depth. -/

structure NRule where
  name : String
  body : GExpr
  lookahead : Option GExpr

structure NormBuilder where
  rules : List NRule

/-- AddRuleWithHint on the normalizer builder. -/
def NormBuilder.AddRuleWithHint (b : NormBuilder) (hint : String) (body : GExpr) :
    NormBuilder × Nat :=
  ({ rules := b.rules ++ [{ name := hint, body := body, lookahead := none }] },
   b.rules.length)

/-- UpdateRuleBody on the normalizer builder. -/
def NormBuilder.UpdateRuleBody (b : NormBuilder) (i : Nat) (body : GExpr) :
    NormBuilder :=
  { rules := b.rules.enum.map
      (fun p => if p.1 = i then { p.2 with body := body } else p.2) }

/-- UpdateLookaheadAssertion on the normalizer builder. -/
def NormBuilder.UpdateLookaheadAssertion (b : NormBuilder) (i : Nat)
    (la : Option GExpr) : NormBuilder :=
  { rules := b.rules.enum.map
      (fun p => if p.1 = i then { p.2 with lookahead := la } else p.2) }

/-- Atoms of the normalized form: byte_string, char_class, char_class_star,
rule_ref and repeat. -/
def isAtom : GExpr → Bool
  | .byteString _ => true
  | .charClass _ _ => true
  | .charClassStar _ _ => true
  | .ruleRef _ => true
  | .repeatExpr _ _ _ => true
  | _ => false

/-- A sequence of atoms. -/
def isSeqOfAtoms : GExpr → Bool
  | .sequence xs => xs.all isAtom
  | _ => false

/-- Whether an expression matches empty_str. -/
def isEmptyStrE : GExpr → Bool
  | .emptyStr => true
  | _ => false

/-- The children list of a normalized choices: every child a sequence of
atoms, except that the first child may instead be empty_str (so empty_str
occurs at most once and only first). -/
def isNormalizedChoiceList : List GExpr → Bool
  | [] => true
  | c :: cs => (isSeqOfAtoms c || isEmptyStrE c) && cs.all isSeqOfAtoms

/-- A normalized non-macro rule body: a choices with a normalized child
list. -/
def isNormalizedChoices : GExpr → Bool
  | .choices cs => isNormalizedChoiceList cs
  | _ => false

/-- A normalized rule body: a tag_dispatch or a normalized choices. -/
def normBodyOk : GExpr → Bool
  | .tagDispatch _ => true
  | b => isNormalizedChoices b

/-- A normalized look-ahead: absent, or a sequence of atoms. -/
def normLaOk : Option GExpr → Bool
  | none => true
  | some la => isSeqOfAtoms la

/-- A normalized rule: the body is a tag_dispatch or a normalized choices,
and the look-ahead assertion, when present, is a sequence of atoms. -/
def isNormalizedRule (r : NRule) : Bool :=
  normBodyOk r.body && normLaOk r.lookahead

/-- The loop of VisitSequence_: flatten nested sequences, recurse into
choices (inlining a singleton choice or hoisting a multi-alternative choice
into a fresh rule), drop empty strings, keep atoms, and hoist tag_dispatch
into a fresh rule.  The two visitor parameters are VisitSequence_ and
VisitChoices_ one fuel level down. -/
def seqStep
    (visitSeqList : NormBuilder → List GExpr → Except String (NormBuilder × List GExpr))
    (visitChoicesList : NormBuilder → List GExpr → Except String (NormBuilder × List GExpr))
    (cur_rule_name : String) (b : NormBuilder) :
    GExpr → Except String (NormBuilder × List GExpr)
  | .sequence xs => visitSeqList b xs
  | .choices xs =>
    match visitChoicesList b xs with
    | .error e => .error e
    | .ok (b', sub_choice_ids) =>
      match sub_choice_ids with
      | [single] =>
        match single with
        | .emptyStr => .ok (b', [])
        | .sequence es => .ok (b', es)
        | _ => .error "unexpected singleton choice shape"
      | _ =>
        let (b'', new_choice_rule_id) :=
          b'.AddRuleWithHint cur_rule_name (.choices sub_choice_ids)
        .ok (b'', [.ruleRef new_choice_rule_id])
  | .emptyStr => .ok (b, [])
  | .byteString s => .ok (b, [.byteString s])
  | .charClass n r => .ok (b, [.charClass n r])
  | .charClassStar n r => .ok (b, [.charClassStar n r])
  | .ruleRef i => .ok (b, [.ruleRef i])
  | .repeatExpr i mn mx => .ok (b, [.repeatExpr i mn mx])
  | .tagDispatch td =>
    let (b', new_rule_id) := b.AddRuleWithHint cur_rule_name (.tagDispatch td)
    .ok (b', [.ruleRef new_rule_id])

def seqLoop
    (visitSeqList : NormBuilder → List GExpr → Except String (NormBuilder × List GExpr))
    (visitChoicesList : NormBuilder → List GExpr → Except String (NormBuilder × List GExpr))
    (cur_rule_name : String) (b : NormBuilder) :
    List GExpr → Except String (NormBuilder × List GExpr)
  | [] => .ok (b, [])
  | element :: rest =>
    match seqStep visitSeqList visitChoicesList cur_rule_name b element with
    | .error e => .error e
    | .ok (b', ids) =>
      match seqLoop visitSeqList visitChoicesList cur_rule_name b' rest with
      | .error e => .error e
      | .ok (b'', ids') => .ok (b'', ids ++ ids')

/-- The loop of VisitChoices_: collect normalized alternatives and the
found_empty flag.  Sequences that normalize to nothing and explicit
empty_str set found_empty; nested choices are spliced (their leading
empty_str, if any, also sets found_empty); atoms become singleton sequences;
tag_dispatch is hoisted into a fresh rule. -/
def choicesStep
    (visitSeqList : NormBuilder → List GExpr → Except String (NormBuilder × List GExpr))
    (visitChoicesList : NormBuilder → List GExpr → Except String (NormBuilder × List GExpr))
    (cur_rule_name : String) (b : NormBuilder) :
    GExpr → Except String (NormBuilder × List GExpr × Bool)
  | .sequence xs =>
    match visitSeqList b xs with
    | .error e => .error e
    | .ok (b', sub_sequence_ids) =>
      if sub_sequence_ids.isEmpty then .ok (b', [], true)
      else .ok (b', [.sequence sub_sequence_ids], false)
  | .choices xs =>
    match visitChoicesList b xs with
    | .error e => .error e
    | .ok (b', sub_choice_ids) =>
      match sub_choice_ids with
      | [] => .error "ICHECK failed: choices must have at least one element"
      | c0 :: ctail =>
        if isEmptyStrE c0 then .ok (b', ctail, true)
        else .ok (b', c0 :: ctail, false)
  | .emptyStr => .ok (b, [], true)
  | .byteString s => .ok (b, [.sequence [.byteString s]], false)
  | .charClass n r => .ok (b, [.sequence [.charClass n r]], false)
  | .charClassStar n r => .ok (b, [.sequence [.charClassStar n r]], false)
  | .ruleRef i => .ok (b, [.sequence [.ruleRef i]], false)
  | .repeatExpr i mn mx => .ok (b, [.sequence [.repeatExpr i mn mx]], false)
  | .tagDispatch td =>
    let (b', new_rule_id) := b.AddRuleWithHint cur_rule_name (.tagDispatch td)
    .ok (b', [.sequence [.ruleRef new_rule_id]], false)

def choicesLoop
    (visitSeqList : NormBuilder → List GExpr → Except String (NormBuilder × List GExpr))
    (visitChoicesList : NormBuilder → List GExpr → Except String (NormBuilder × List GExpr))
    (cur_rule_name : String) (b : NormBuilder) :
    List GExpr → Except String (NormBuilder × List GExpr × Bool)
  | [] => .ok (b, [], false)
  | choice :: rest =>
    match choicesStep visitSeqList visitChoicesList cur_rule_name b choice with
    | .error e => .error e
    | .ok (b', ids, fe) =>
      match choicesLoop visitSeqList visitChoicesList cur_rule_name b' rest with
      | .error e => .error e
      | .ok (b'', ids', fe') => .ok (b'', ids ++ ids', fe || fe')

mutual

/-- VisitSequence_ of StructureNormalizerImpl (fueled wrapper around
seqLoop). -/
def visitSequenceN : Nat → String → NormBuilder → List GExpr →
    Except String (NormBuilder × List GExpr)
  | 0, _, _, _ => .error "normalizer recursion exhausted"
  | fuel + 1, name, b, xs =>
    seqLoop (visitSequenceN fuel name) (visitChoicesN fuel name) name b xs

/-- VisitChoices_ of StructureNormalizerImpl: run the loop, then insert a
single leading empty_str when found_empty, and enforce the ICHECK that at
least one alternative remains. -/
def visitChoicesN : Nat → String → NormBuilder → List GExpr →
    Except String (NormBuilder × List GExpr)
  | 0, _, _, _ => .error "normalizer recursion exhausted"
  | fuel + 1, name, b, xs =>
    match choicesLoop (visitSequenceN fuel name) (visitChoicesN fuel name) name b xs with
    | .error e => .error e
    | .ok (b', ids, found_empty) =>
      let ids' := if found_empty then GExpr.emptyStr :: ids else ids
      if ids'.isEmpty then .error "ICHECK failed: choices must have at least one element"
      else .ok (b', ids')

end

/-- VisitRuleBody of StructureNormalizerImpl. -/
def visitRuleBodyN (fuel : Nat) (name : String) (b : NormBuilder) :
    GExpr → Except String (NormBuilder × GExpr)
  | .sequence xs =>
    match visitSequenceN fuel name b xs with
    | .error e => .error e
    | .ok (b', ids) => .ok (b', .choices [.sequence ids])
  | .choices xs =>
    match visitChoicesN fuel name b xs with
    | .error e => .error e
    | .ok (b', ids) => .ok (b', .choices ids)
  | .emptyStr => .ok (b, .choices [.emptyStr])
  | .byteString s => .ok (b, .choices [.sequence [.byteString s]])
  | .charClass n r => .ok (b, .choices [.sequence [.charClass n r]])
  | .charClassStar n r => .ok (b, .choices [.sequence [.charClassStar n r]])
  | .ruleRef i => .ok (b, .choices [.sequence [.ruleRef i]])
  | .repeatExpr i mn mx => .ok (b, .choices [.sequence [.repeatExpr i mn mx]])
  | .tagDispatch td => .ok (b, .tagDispatch td)

/-- VisitLookaheadAssertion of StructureNormalizerImpl: a sequence is
normalized into a sequence of atoms; an atom becomes a singleton sequence;
choices, empty strings and tag_dispatch are fatal in the source and are
errors here. -/
def visitLookaheadN (fuel : Nat) (name : String) (b : NormBuilder) :
    GExpr → Except String (NormBuilder × GExpr)
  | .sequence xs =>
    match visitSequenceN fuel name b xs with
    | .error e => .error e
    | .ok (b', ids) => .ok (b', .sequence ids)
  | .choices _ => .error "Choices in lookahead assertion are not supported yet"
  | .emptyStr => .error "Empty string should not be in lookahead assertion"
  | .tagDispatch _ => .error "TagDispatch should not be in lookahead assertion"
  | .byteString s => .ok (b, .sequence [.byteString s])
  | .charClass n r => .ok (b, .sequence [.charClass n r])
  | .charClassStar n r => .ok (b, .sequence [.charClassStar n r])
  | .ruleRef i => .ok (b, .sequence [.ruleRef i])
  | .repeatExpr i mn mx => .ok (b, .sequence [.repeatExpr i mn mx])

/-- The per-rule loop of StructureNormalizerImpl::Apply: normalize rule i's
body, install it, then normalize and install its look-ahead assertion. -/
def normalizerApplyLoop (fuel : Nat) (b : NormBuilder) :
    List (Nat × NRule) → Except String NormBuilder
  | [] => .ok b
  | (i, r) :: rest =>
    match visitRuleBodyN fuel r.name b r.body with
    | .error e => .error e
    | .ok (b₁, body') =>
      let b₂ := b₁.UpdateRuleBody i body'
      match (match r.lookahead with
             | none => .ok (b₂, none)
             | some la =>
               match visitLookaheadN fuel r.name b₂ la with
               | .error e => .error e
               | .ok (b₃, la') => .ok (b₃, some la') :
             Except String (NormBuilder × Option GExpr)) with
      | .error e => .error e
      | .ok (b₃, la') =>
        normalizerApplyLoop fuel (b₃.UpdateLookaheadAssertion i la') rest

/-- StructureNormalizerImpl::Apply: reserve one empty rule per input rule,
then normalize every rule body and look-ahead in order. -/
def applyStructureNormalizer (fuel : Nat) (g : List NRule) :
    Except String NormBuilder :=
  let b0 : NormBuilder :=
    { rules := g.map (fun r => { name := r.name, body := .choices [], lookahead := none }) }
  normalizerApplyLoop fuel b0 g.enum

/-- The builder b' extends b by appended rules that are all normalized. -/
def extendsNorm (b b' : NormBuilder) : Prop :=
  ∃ delta, b'.rules = b.rules ++ delta ∧ ∀ r ∈ delta, isNormalizedRule r = true

theorem extendsNorm_refl (b : NormBuilder) : extendsNorm b b :=
  ⟨[], by simp, by simp⟩

theorem extendsNorm_trans {a b c : NormBuilder} (h₁ : extendsNorm a b)
    (h₂ : extendsNorm b c) : extendsNorm a c := by
  obtain ⟨d₁, he₁, hn₁⟩ := h₁
  obtain ⟨d₂, he₂, hn₂⟩ := h₂
  refine ⟨d₁ ++ d₂, by rw [he₂, he₁, List.append_assoc], ?_⟩
  intro r hr
  rcases List.mem_append.mp hr with h | h
  · exact hn₁ r h
  · exact hn₂ r h

theorem extendsNorm_add (b : NormBuilder) (hint : String) (body : GExpr)
    (h : isNormalizedRule { name := hint, body := body, lookahead := none } = true) :
    extendsNorm b (b.AddRuleWithHint hint body).1 :=
  ⟨[{ name := hint, body := body, lookahead := none }], rfl, by simpa using h⟩

theorem seqStep_spec
    (vs vc : NormBuilder → List GExpr → Except String (NormBuilder × List GExpr))
    (hvs : ∀ b xs b' ids, vs b xs = .ok (b', ids) →
      extendsNorm b b' ∧ ids.all isAtom = true)
    (hvc : ∀ b xs b' ids, vc b xs = .ok (b', ids) →
      extendsNorm b b' ∧ isNormalizedChoiceList ids = true)
    (name : String) (b : NormBuilder) (e : GExpr) (b' : NormBuilder)
    (ids : List GExpr) (h : seqStep vs vc name b e = .ok (b', ids)) :
    extendsNorm b b' ∧ ids.all isAtom = true := by
  cases e with
  | sequence xs => exact hvs b xs b' ids h
  | choices xs =>
    simp only [seqStep] at h
    cases hc : vc b xs with
    | error e => rw [hc] at h; cases h
    | ok p =>
      obtain ⟨pb, pids⟩ := p
      simp only [hc] at h
      obtain ⟨hext, hnl⟩ := hvc b xs pb pids (by rw [hc])
      cases pids with
      | nil =>
        cases h
        refine ⟨extendsNorm_trans hext (extendsNorm_add _ _ _ ?_), by rfl⟩
        simp [isNormalizedRule, normBodyOk, normLaOk, isNormalizedChoices, isNormalizedChoiceList]
      | cons c0 ctail =>
        cases ctail with
        | nil =>
          cases c0 with
          | emptyStr => cases h; exact ⟨hext, rfl⟩
          | sequence es =>
            cases h
            refine ⟨hext, ?_⟩
            simpa [isNormalizedChoiceList, isSeqOfAtoms, isEmptyStrE] using hnl
          | byteString s => cases h
          | charClass n r => cases h
          | charClassStar n r => cases h
          | ruleRef i => cases h
          | repeatExpr i mn mx => cases h
          | choices cs => cases h
          | tagDispatch td => cases h
        | cons c1 ctail' =>
          cases h
          refine ⟨extendsNorm_trans hext (extendsNorm_add _ _ _ ?_), by rfl⟩
          simpa [isNormalizedRule, normBodyOk, normLaOk, isNormalizedChoices] using hnl
  | emptyStr => cases h; exact ⟨extendsNorm_refl _, rfl⟩
  | byteString s => cases h; exact ⟨extendsNorm_refl _, rfl⟩
  | charClass n r => cases h; exact ⟨extendsNorm_refl _, rfl⟩
  | charClassStar n r => cases h; exact ⟨extendsNorm_refl _, rfl⟩
  | ruleRef i => cases h; exact ⟨extendsNorm_refl _, rfl⟩
  | repeatExpr i mn mx => cases h; exact ⟨extendsNorm_refl _, rfl⟩
  | tagDispatch td =>
    cases h
    exact ⟨extendsNorm_add _ _ _ (by simp [isNormalizedRule, normBodyOk, normLaOk]), rfl⟩

theorem seqLoop_spec
    (vs vc : NormBuilder → List GExpr → Except String (NormBuilder × List GExpr))
    (hvs : ∀ b xs b' ids, vs b xs = .ok (b', ids) →
      extendsNorm b b' ∧ ids.all isAtom = true)
    (hvc : ∀ b xs b' ids, vc b xs = .ok (b', ids) →
      extendsNorm b b' ∧ isNormalizedChoiceList ids = true)
    (name : String) (xs : List GExpr) :
    ∀ (b b' : NormBuilder) (ids : List GExpr),
      seqLoop vs vc name b xs = .ok (b', ids) →
      extendsNorm b b' ∧ ids.all isAtom = true := by
  induction xs with
  | nil =>
    intro b b' ids h
    cases h
    exact ⟨extendsNorm_refl _, rfl⟩
  | cons x rest ih =>
    intro b b' ids h
    simp only [seqLoop] at h
    cases hstep : seqStep vs vc name b x with
    | error e => rw [hstep] at h; cases h
    | ok p =>
      obtain ⟨pb, pids⟩ := p
      simp only [hstep] at h
      obtain ⟨hext₁, hat₁⟩ := seqStep_spec vs vc hvs hvc name b x pb pids (by rw [hstep])
      cases hrec : seqLoop vs vc name pb rest with
      | error e => rw [hrec] at h; cases h
      | ok q =>
        obtain ⟨qb, qids⟩ := q
        obtain ⟨hext₂, hat₂⟩ := ih pb qb qids (by rw [hrec])
        simp only [hrec] at h
        cases h
        refine ⟨extendsNorm_trans hext₁ hext₂, ?_⟩
        rw [List.all_append, hat₁, hat₂]
        rfl

theorem choicesStep_spec
    (vs vc : NormBuilder → List GExpr → Except String (NormBuilder × List GExpr))
    (hvs : ∀ b xs b' ids, vs b xs = .ok (b', ids) →
      extendsNorm b b' ∧ ids.all isAtom = true)
    (hvc : ∀ b xs b' ids, vc b xs = .ok (b', ids) →
      extendsNorm b b' ∧ isNormalizedChoiceList ids = true)
    (name : String) (b : NormBuilder) (e : GExpr) (b' : NormBuilder)
    (ids : List GExpr) (fe : Bool)
    (h : choicesStep vs vc name b e = .ok (b', ids, fe)) :
    extendsNorm b b' ∧ ids.all isSeqOfAtoms = true := by
  cases e with
  | sequence xs =>
    simp only [choicesStep] at h
    cases hs : vs b xs with
    | error e => rw [hs] at h; cases h
    | ok p =>
      obtain ⟨pb, pids⟩ := p
      simp only [hs] at h
      obtain ⟨hext, hat⟩ := hvs b xs pb pids (by rw [hs])
      by_cases hemp : pids.isEmpty
      · rw [if_pos hemp] at h
        cases h
        exact ⟨hext, rfl⟩
      · rw [if_neg hemp] at h
        cases h
        refine ⟨hext, ?_⟩
        simp [isSeqOfAtoms, hat]
  | choices xs =>
    simp only [choicesStep] at h
    cases hc : vc b xs with
    | error e => rw [hc] at h; cases h
    | ok p =>
      obtain ⟨pb, pids⟩ := p
      obtain ⟨hext, hnl⟩ := hvc b xs pb pids (by rw [hc])
      cases pids with
      | nil => simp only [hc] at h; cases h
      | cons c0 ctail =>
        simp only [hc] at h
        simp only [isNormalizedChoiceList, Bool.and_eq_true, Bool.or_eq_true] at hnl
        by_cases h0 : isEmptyStrE c0 = true
        · rw [if_pos h0] at h
          cases h
          exact ⟨hext, hnl.2⟩
        · rw [if_neg h0] at h
          cases h
          refine ⟨hext, ?_⟩
          have hc0 : isSeqOfAtoms c0 = true := by
            rcases hnl.1 with hh | hh
            · exact hh
            · exact absurd hh h0
          simp [List.all_cons, hc0, hnl.2]
  | emptyStr => cases h; exact ⟨extendsNorm_refl _, rfl⟩
  | byteString s => cases h; exact ⟨extendsNorm_refl _, rfl⟩
  | charClass n r => cases h; exact ⟨extendsNorm_refl _, rfl⟩
  | charClassStar n r => cases h; exact ⟨extendsNorm_refl _, rfl⟩
  | ruleRef i => cases h; exact ⟨extendsNorm_refl _, rfl⟩
  | repeatExpr i mn mx => cases h; exact ⟨extendsNorm_refl _, rfl⟩
  | tagDispatch td =>
    cases h
    exact ⟨extendsNorm_add _ _ _ (by simp [isNormalizedRule, normBodyOk, normLaOk]), rfl⟩

theorem choicesLoop_spec
    (vs vc : NormBuilder → List GExpr → Except String (NormBuilder × List GExpr))
    (hvs : ∀ b xs b' ids, vs b xs = .ok (b', ids) →
      extendsNorm b b' ∧ ids.all isAtom = true)
    (hvc : ∀ b xs b' ids, vc b xs = .ok (b', ids) →
      extendsNorm b b' ∧ isNormalizedChoiceList ids = true)
    (name : String) (xs : List GExpr) :
    ∀ (b b' : NormBuilder) (ids : List GExpr) (fe : Bool),
      choicesLoop vs vc name b xs = .ok (b', ids, fe) →
      extendsNorm b b' ∧ ids.all isSeqOfAtoms = true := by
  induction xs with
  | nil =>
    intro b b' ids fe h
    cases h
    exact ⟨extendsNorm_refl _, rfl⟩
  | cons x rest ih =>
    intro b b' ids fe h
    simp only [choicesLoop] at h
    cases hstep : choicesStep vs vc name b x with
    | error e => rw [hstep] at h; cases h
    | ok p =>
      obtain ⟨pb, pids, pfe⟩ := p
      simp only [hstep] at h
      obtain ⟨hext₁, hat₁⟩ :=
        choicesStep_spec vs vc hvs hvc name b x pb pids pfe (by rw [hstep])
      cases hrec : choicesLoop vs vc name pb rest with
      | error e => rw [hrec] at h; cases h
      | ok q =>
        obtain ⟨qb, qids, qfe⟩ := q
        obtain ⟨hext₂, hat₂⟩ := ih pb qb qids qfe (by rw [hrec])
        simp only [hrec] at h
        cases h
        refine ⟨extendsNorm_trans hext₁ hext₂, ?_⟩
        rw [List.all_append, hat₁, hat₂]
        rfl

theorem visitN_spec (fuel : Nat) :
    (∀ (name : String) (b : NormBuilder) (xs : List GExpr) (b' : NormBuilder)
       (ids : List GExpr), visitSequenceN fuel name b xs = .ok (b', ids) →
       extendsNorm b b' ∧ ids.all isAtom = true) ∧
    (∀ (name : String) (b : NormBuilder) (xs : List GExpr) (b' : NormBuilder)
       (ids : List GExpr), visitChoicesN fuel name b xs = .ok (b', ids) →
       extendsNorm b b' ∧ isNormalizedChoiceList ids = true) := by
  induction fuel with
  | zero =>
    constructor
    · intro name b xs b' ids h; cases h
    · intro name b xs b' ids h; cases h
  | succ fuel ih =>
    constructor
    · intro name b xs b' ids h
      simp only [visitSequenceN] at h
      exact seqLoop_spec _ _ (fun b xs => ih.1 name b xs) (fun b xs => ih.2 name b xs)
        name xs b b' ids h
    · intro name b xs b' ids h
      simp only [visitChoicesN] at h
      cases hl : choicesLoop (visitSequenceN fuel name) (visitChoicesN fuel name)
          name b xs with
      | error e => rw [hl] at h; cases h
      | ok p =>
        obtain ⟨pb, pids, pfe⟩ := p
        simp only [hl] at h
        obtain ⟨hext, hat⟩ := choicesLoop_spec _ _ (fun b xs => ih.1 name b xs)
          (fun b xs => ih.2 name b xs) name xs b pb pids pfe (by rw [hl])
        by_cases hemp : (if pfe then GExpr.emptyStr :: pids else pids).isEmpty
        · rw [if_pos hemp] at h
          cases h
        · rw [if_neg hemp] at h
          cases h
          refine ⟨hext, ?_⟩
          cases pfe with
          | true =>
            simp only [if_true]
            simp [isNormalizedChoiceList, isEmptyStrE, hat]
          | false =>
            cases hat' : pids with
            | nil => simp [isNormalizedChoiceList]
            | cons c0 ctail =>
              rw [hat'] at hat
              simp only [List.all_cons, Bool.and_eq_true] at hat
              simp [isNormalizedChoiceList, hat.1, hat.2]

theorem visitRuleBodyN_spec (fuel : Nat) (name : String) (b : NormBuilder)
    (e : GExpr) (b' : NormBuilder) (body : GExpr)
    (h : visitRuleBodyN fuel name b e = .ok (b', body)) :
    extendsNorm b b' ∧ normBodyOk body = true := by
  cases e with
  | sequence xs =>
    simp only [visitRuleBodyN] at h
    cases hs : visitSequenceN fuel name b xs with
    | error e => rw [hs] at h; cases h
    | ok p =>
      obtain ⟨pb, pids⟩ := p
      obtain ⟨hext, hat⟩ := (visitN_spec fuel).1 name b xs pb pids (by rw [hs])
      simp only [hs] at h
      cases h
      exact ⟨hext, by simp [normBodyOk, isNormalizedChoices, isNormalizedChoiceList, isSeqOfAtoms, hat]⟩
  | choices xs =>
    simp only [visitRuleBodyN] at h
    cases hc : visitChoicesN fuel name b xs with
    | error e => rw [hc] at h; cases h
    | ok p =>
      obtain ⟨pb, pids⟩ := p
      obtain ⟨hext, hnl⟩ := (visitN_spec fuel).2 name b xs pb pids (by rw [hc])
      simp only [hc] at h
      cases h
      exact ⟨hext, by simpa [normBodyOk, isNormalizedChoices] using hnl⟩
  | emptyStr =>
    cases h
    exact ⟨extendsNorm_refl _, by
      simp [normBodyOk, isNormalizedChoices, isNormalizedChoiceList, isEmptyStrE]⟩
  | byteString s =>
    cases h
    exact ⟨extendsNorm_refl _, by
      simp [normBodyOk, isNormalizedChoices, isNormalizedChoiceList, isSeqOfAtoms, isAtom]⟩
  | charClass n r =>
    cases h
    exact ⟨extendsNorm_refl _, by
      simp [normBodyOk, isNormalizedChoices, isNormalizedChoiceList, isSeqOfAtoms, isAtom]⟩
  | charClassStar n r =>
    cases h
    exact ⟨extendsNorm_refl _, by
      simp [normBodyOk, isNormalizedChoices, isNormalizedChoiceList, isSeqOfAtoms, isAtom]⟩
  | ruleRef i =>
    cases h
    exact ⟨extendsNorm_refl _, by
      simp [normBodyOk, isNormalizedChoices, isNormalizedChoiceList, isSeqOfAtoms, isAtom]⟩
  | repeatExpr i mn mx =>
    cases h
    exact ⟨extendsNorm_refl _, by
      simp [normBodyOk, isNormalizedChoices, isNormalizedChoiceList, isSeqOfAtoms, isAtom]⟩
  | tagDispatch td =>
    cases h
    exact ⟨extendsNorm_refl _, rfl⟩

theorem visitLookaheadN_spec (fuel : Nat) (name : String) (b : NormBuilder)
    (e : GExpr) (b' : NormBuilder) (la : GExpr)
    (h : visitLookaheadN fuel name b e = .ok (b', la)) :
    extendsNorm b b' ∧ isSeqOfAtoms la = true := by
  cases e with
  | sequence xs =>
    simp only [visitLookaheadN] at h
    cases hs : visitSequenceN fuel name b xs with
    | error e => rw [hs] at h; cases h
    | ok p =>
      obtain ⟨pb, pids⟩ := p
      obtain ⟨hext, hat⟩ := (visitN_spec fuel).1 name b xs pb pids (by rw [hs])
      simp only [hs] at h
      cases h
      exact ⟨hext, by simpa [isSeqOfAtoms] using hat⟩
  | choices xs => cases h
  | emptyStr => cases h
  | tagDispatch td => cases h
  | byteString s => cases h; exact ⟨extendsNorm_refl _, by simp [isSeqOfAtoms, isAtom]⟩
  | charClass n r => cases h; exact ⟨extendsNorm_refl _, by simp [isSeqOfAtoms, isAtom]⟩
  | charClassStar n r => cases h; exact ⟨extendsNorm_refl _, by simp [isSeqOfAtoms, isAtom]⟩
  | ruleRef i => cases h; exact ⟨extendsNorm_refl _, by simp [isSeqOfAtoms, isAtom]⟩
  | repeatExpr i mn mx => cases h; exact ⟨extendsNorm_refl _, by simp [isSeqOfAtoms, isAtom]⟩

/-- All rules of a builder are normalized. -/
def allNormalized (b : NormBuilder) : Prop :=
  ∀ r ∈ b.rules, isNormalizedRule r = true

theorem allNormalized_of_extends {b b' : NormBuilder} (h : allNormalized b)
    (he : extendsNorm b b') : allNormalized b' := by
  obtain ⟨d, heq, hn⟩ := he
  intro r hr
  rw [heq] at hr
  rcases List.mem_append.mp hr with h1 | h1
  · exact h r h1
  · exact hn r h1

theorem allNormalized_updateBody {b : NormBuilder} (h : allNormalized b)
    (i : Nat) (body : GExpr) (hb : normBodyOk body = true) :
    allNormalized (b.UpdateRuleBody i body) := by
  intro r hr
  simp only [NormBuilder.UpdateRuleBody] at hr
  obtain ⟨p, hp, hre⟩ := List.mem_map.mp hr
  have hmem : p.2 ∈ b.rules := List.get?_mem (List.mem_enum_iff_get?.mp hp)
  have hold := h p.2 hmem
  rw [← hre]
  by_cases hi : p.1 = i
  · rw [if_pos hi]
    unfold isNormalizedRule at hold ⊢
    simp only [Bool.and_eq_true] at hold ⊢
    exact ⟨hb, hold.2⟩
  · rw [if_neg hi]
    exact hold

theorem allNormalized_updateLookahead {b : NormBuilder} (h : allNormalized b)
    (i : Nat) (la : Option GExpr) (hla : normLaOk la = true) :
    allNormalized (b.UpdateLookaheadAssertion i la) := by
  intro r hr
  simp only [NormBuilder.UpdateLookaheadAssertion] at hr
  obtain ⟨p, hp, hre⟩ := List.mem_map.mp hr
  have hmem : p.2 ∈ b.rules := List.get?_mem (List.mem_enum_iff_get?.mp hp)
  have hold := h p.2 hmem
  rw [← hre]
  by_cases hi : p.1 = i
  · rw [if_pos hi]
    unfold isNormalizedRule at hold ⊢
    simp only [Bool.and_eq_true] at hold ⊢
    exact ⟨hold.1, hla⟩
  · rw [if_neg hi]
    exact hold

theorem normalizerApplyLoop_spec (fuel : Nat) :
    ∀ (items : List (Nat × NRule)) (b out : NormBuilder),
    allNormalized b → normalizerApplyLoop fuel b items = .ok out →
    allNormalized out := by
  intro items
  induction items with
  | nil =>
    intro b out hb h
    cases h
    exact hb
  | cons x rest ih =>
    obtain ⟨i, r⟩ := x
    intro b out hb h
    simp only [normalizerApplyLoop] at h
    cases hvb : visitRuleBodyN fuel r.name b r.body with
    | error e => rw [hvb] at h; cases h
    | ok p =>
      obtain ⟨pb, body'⟩ := p
      obtain ⟨hext, hbody⟩ := visitRuleBodyN_spec fuel r.name b r.body pb body' (by rw [hvb])
      simp only [hvb] at h
      have hb2 : allNormalized (pb.UpdateRuleBody i body') :=
        allNormalized_updateBody (allNormalized_of_extends hb hext) i body' hbody
      cases hla : r.lookahead with
      | none =>
        simp only [hla] at h
        exact ih _ out (allNormalized_updateLookahead hb2 i none (by rfl)) h
      | some la =>
        simp only [hla] at h
        cases hvl : visitLookaheadN fuel r.name (pb.UpdateRuleBody i body') la with
        | error e => rw [hvl] at h; cases h
        | ok q =>
          obtain ⟨qb, la'⟩ := q
          obtain ⟨hext2, hsa⟩ :=
            visitLookaheadN_spec fuel r.name (pb.UpdateRuleBody i body') la qb la'
              (by rw [hvl])
          simp only [hvl] at h
          exact ih _ out (allNormalized_updateLookahead
            (allNormalized_of_extends hb2 hext2) i (some la') (by simpa using hsa)) h

/-- C8: whenever the structure normalizer completes, every rule of the
resulting grammar whose body is not a tag_dispatch has a choices body whose
children are each a sequence of atoms (byte_string, char_class,
char_class_star, rule_ref, repeat) or empty_str, with at most one empty_str
child and only as the first child; and every look-ahead assertion body is a
sequence of atoms. -/
theorem normalizer_rules_normalized (fuel : Nat) (g : List NRule)
    (out : NormBuilder) (h : applyStructureNormalizer fuel g = .ok out) :
    ∀ r ∈ out.rules, isNormalizedRule r = true := by
  have h0 : allNormalized
      { rules := g.map
          (fun r => { name := r.name, body := .choices [], lookahead := none }) } := by
    intro r hr
    obtain ⟨r0, _, hre⟩ := List.mem_map.mp hr
    rw [← hre]
    rfl
  exact normalizerApplyLoop_spec fuel g.enum _ out h0 h

/-- A small grammar exercising nested choices, empty strings and a
look-ahead. -/
def normWitnessGrammar : List NRule :=
  [{ name := "root",
     body := .choices [.emptyStr,
       .sequence [.byteString [97], .choices [.byteString [98], .emptyStr]]],
     lookahead := some (.byteString [99]) }]

/-- Witness for C8: normalizing the sample grammar succeeds and every rule of
the output is in normal form. -/
theorem normalizer_rules_normalized_witness :
    ∃ out, applyStructureNormalizer 8 normWitnessGrammar = .ok out ∧
      ∀ r ∈ out.rules, isNormalizedRule r = true :=
  ⟨_, rfl, normalizer_rules_normalized 8 normWitnessGrammar _ rfl⟩

/-! ### FSM construction and the Unicode range lowering (fsm builder)

A growable FSM: a state counter plus an edge list in AddEdge order.  Byte
range edges carry inclusive bounds. -/

structure FSMEdgeM where
  src : Nat
  target : Nat
  emin : Nat
  emax : Nat
deriving DecidableEq, Repr

structure FSMBuild where
  numStates : Nat
  edges : List FSMEdgeM
deriving DecidableEq, Repr

/-- FSMWithStartEnd::AddState: returns the fresh state id. -/
def FSMBuild.AddState (f : FSMBuild) : Nat × FSMBuild :=
  (f.numStates, { f with numStates := f.numStates + 1 })

/-- FSM::AddEdge for a byte range. -/
def FSMBuild.AddEdge (f : FSMBuild) (src target emin emax : Nat) : FSMBuild :=
  { f with edges := f.edges ++ [{ src, target, emin, emax }] }

/-- AddSameLengthCharacterRange, translated from the source.  The arguments
min and max are packed byte tuples in a uint32 (byte i of the C++ byte_min
array is min / 2^(8i) % 2^8).  The uint8 wrap-arounds of the byte_min[k]--
and byte_max[k]++ mutations are written as +255 / +1 modulo 256; the
comparisons byte_max[k] - byte_min[k] > 1 are int arithmetic on the
(possibly adjusted) byte values.  The fuel argument bounds the recursion
depth: every recursive call strictly reduces the byte length of max, so a
depth of 4 suffices for any input and the wrapper passes 8. -/
def AddSameLengthCharacterRange :
    Nat → FSMBuild → Nat → Nat → Nat → Nat → FSMBuild
  | 0, fsm, _, _, _, _ => fsm
  | fuel + 1, fsm, fromS, toS, minv, maxv =>
    let bmin0 := minv % 256
    let bmin1 := minv / 256 % 256
    let bmin2 := minv / 65536 % 256
    let bmin3 := minv / 16777216 % 256
    let bmax0 := maxv % 256
    let bmax1 := maxv / 256 % 256
    let bmax2 := maxv / 65536 % 256
    let bmax3 := maxv / 16777216 % 256
    if bmax1 = 0 then
      fsm.AddEdge fromS toS bmin0 bmax0
    else if bmax3 ≠ 0 then
      if bmax3 = bmin3 then
        let (tmp_state, fsm) := fsm.AddState
        let fsm := fsm.AddEdge fromS tmp_state bmin3 bmax3
        AddSameLengthCharacterRange fuel fsm tmp_state toS
          (minv % 16777216) (maxv % 16777216)
      else
        let (fsm, bmin3') :=
          if minv % 16777216 ≠ 0x808080 then
            let (tmp_state_min, fsm) := fsm.AddState
            let fsm := fsm.AddEdge fromS tmp_state_min bmin3 bmin3
            (AddSameLengthCharacterRange fuel fsm tmp_state_min toS
              (minv % 16777216) 0xBFBFBF, bmin3)
          else (fsm, (bmin3 + 255) % 256)
        let (fsm, bmax3') :=
          if maxv % 16777216 ≠ 0xBFBFBF then
            let (tmp_state_max, fsm) := fsm.AddState
            let fsm := fsm.AddEdge fromS tmp_state_max bmax3 bmax3
            (AddSameLengthCharacterRange fuel fsm tmp_state_max toS
              0x808080 (maxv % 16777216), bmax3)
          else (fsm, (bmax3 + 1) % 256)
        if (bmax3' : Int) - (bmin3' : Int) > 1 then
          let (tmp_state_mid, fsm) := fsm.AddState
          let fsm := fsm.AddEdge fromS tmp_state_mid (bmin3' + 1) (bmax3' - 1)
          let (tmp_state_mid2, fsm) := fsm.AddState
          let fsm := fsm.AddEdge tmp_state_mid tmp_state_mid2 0x80 0xBF
          let (tmp_state_mid3, fsm) := fsm.AddState
          let fsm := fsm.AddEdge tmp_state_mid2 tmp_state_mid3 0x80 0xBF
          fsm.AddEdge tmp_state_mid3 toS 0x80 0xBF
        else fsm
    else if bmax2 ≠ 0 then
      if bmax2 = bmin2 then
        let (tmp_state, fsm) := fsm.AddState
        let fsm := fsm.AddEdge fromS tmp_state bmin2 bmax2
        AddSameLengthCharacterRange fuel fsm tmp_state toS
          (minv % 65536) (maxv % 65536)
      else
        let (fsm, bmin2') :=
          if minv % 65536 ≠ 0x8080 then
            let (tmp_state_min, fsm) := fsm.AddState
            let fsm := fsm.AddEdge fromS tmp_state_min bmin2 bmin2
            (AddSameLengthCharacterRange fuel fsm tmp_state_min toS
              (minv % 65536) 0xBFBF, bmin2)
          else (fsm, (bmin2 + 255) % 256)
        let (fsm, bmax2') :=
          if maxv % 65536 ≠ 0xBFBF then
            let (tmp_state_max, fsm) := fsm.AddState
            let fsm := fsm.AddEdge fromS tmp_state_max bmax2 bmax2
            (AddSameLengthCharacterRange fuel fsm tmp_state_max toS
              0x0080 (maxv % 65536), bmax2)
          else (fsm, (bmax2 + 1) % 256)
        if (bmax2' : Int) - (bmin2' : Int) > 1 then
          let (tmp_state_mid, fsm) := fsm.AddState
          let fsm := fsm.AddEdge fromS tmp_state_mid (bmin2' + 1) (bmax2' - 1)
          let (tmp_state_mid2, fsm) := fsm.AddState
          let fsm := fsm.AddEdge tmp_state_mid tmp_state_mid2 0x80 0xBF
          fsm.AddEdge tmp_state_mid2 toS 0x80 0xBF
        else fsm
    else
      if bmax1 = bmin1 then
        let (tmp_state, fsm) := fsm.AddState
        let fsm := fsm.AddEdge fromS tmp_state bmin1 bmax1
        AddSameLengthCharacterRange fuel fsm tmp_state toS
          (minv % 256) (maxv % 256)
      else
        let (fsm, bmin1') :=
          if minv % 256 ≠ 0x80 then
            let (tmp_state_min, fsm) := fsm.AddState
            let fsm := fsm.AddEdge fromS tmp_state_min bmin1 bmin1
            (AddSameLengthCharacterRange fuel fsm tmp_state_min toS
              (minv % 256) 0xBF, bmin1)
          else (fsm, (bmin1 + 255) % 256)
        let (fsm, bmax1') :=
          if maxv % 256 ≠ 0xBF then
            let (tmp_state_max, fsm) := fsm.AddState
            let fsm := fsm.AddEdge fromS tmp_state_max bmax1 bmax1
            (AddSameLengthCharacterRange fuel fsm tmp_state_max toS
              0x0080 (maxv % 256), bmax1)
          else (fsm, (bmax1 + 1) % 256)
        if (bmax1' : Int) - (bmin1' : Int) > 1 then
          let (tmp_state_mid, fsm) := fsm.AddState
          let fsm := fsm.AddEdge fromS tmp_state_mid (bmin1' + 1) (bmax1' - 1)
          fsm.AddEdge tmp_state_mid toS 0x80 0xBF
        else fsm

def kMax1ByteUnicode : Nat := 0x7F
def kMin2BytesUnicode : Nat := 0xC080
def kMax2BytesUnicode : Nat := 0xDFBF
def kMin3BytesUnicode : Nat := 0xE08080
def kMax3BytesUnicode : Nat := 0xEFBFBF
def kMin4BytesUnicode : Nat := 0xF0808080
def kMax4BytesUnicode : Nat := 0xF7BFBFBF

/-- The max-side clamp at the start of AddCharacterRange ("ensure max and
min are valid unicode value"). -/
def clampMaxUnicode (maxv : Nat) : Nat :=
  if maxv > kMax4BytesUnicode then kMax4BytesUnicode
  else if maxv > kMax3BytesUnicode then
    (if maxv < kMin4BytesUnicode then kMax3BytesUnicode else maxv)
  else if maxv > kMax2BytesUnicode then
    (if maxv < kMin3BytesUnicode then kMax2BytesUnicode else maxv)
  else if maxv < kMin2BytesUnicode ∧ maxv > kMax1ByteUnicode then kMax1ByteUnicode
  else maxv

/-- The min-side clamp at the start of AddCharacterRange. -/
def clampMinUnicode (minv : Nat) : Nat :=
  if minv > kMax4BytesUnicode then kMax4BytesUnicode
  else if minv > kMax3BytesUnicode then
    (if minv < kMin4BytesUnicode then kMin4BytesUnicode else minv)
  else if minv > kMax2BytesUnicode then
    (if minv < kMin3BytesUnicode then kMin3BytesUnicode else minv)
  else if minv < kMin2BytesUnicode ∧ minv > kMax1ByteUnicode then kMin2BytesUnicode
  else minv

/-- GrammarFSMBuilderImpl::AddCharacterRange: clamp min and max at the
per-length boundary constants (which are packed UTF-8 byte tuples, not code
points), then split the range along the byte-length classes, adding one
same-length sub-machine per class. -/
def AddCharacterRange (fsm : FSMBuild) (fromS toS : Nat) (minv maxv : Nat) :
    FSMBuild :=
  let maxc := clampMaxUnicode maxv
  let minc := clampMinUnicode minv
  if maxc ≤ kMax1ByteUnicode then
    AddSameLengthCharacterRange 8 fsm fromS toS minc maxc
  else if maxc ≤ kMax2BytesUnicode then
    if minc ≥ kMin2BytesUnicode then
      AddSameLengthCharacterRange 8 fsm fromS toS minc maxc
    else
      let fsm := AddSameLengthCharacterRange 8 fsm fromS toS minc kMax1ByteUnicode
      AddSameLengthCharacterRange 8 fsm fromS toS kMin2BytesUnicode maxc
  else if maxc ≤ kMax3BytesUnicode then
    if minc ≥ kMin3BytesUnicode then
      AddSameLengthCharacterRange 8 fsm fromS toS minc maxc
    else if minc ≥ kMin2BytesUnicode then
      let fsm := AddSameLengthCharacterRange 8 fsm fromS toS minc kMax2BytesUnicode
      AddSameLengthCharacterRange 8 fsm fromS toS kMin3BytesUnicode maxc
    else
      let fsm := AddSameLengthCharacterRange 8 fsm fromS toS minc kMax1ByteUnicode
      let fsm := AddSameLengthCharacterRange 8 fsm fromS toS kMin2BytesUnicode kMax2BytesUnicode
      AddSameLengthCharacterRange 8 fsm fromS toS kMin3BytesUnicode maxc
  else
    if minc ≥ kMin4BytesUnicode then
      AddSameLengthCharacterRange 8 fsm fromS toS minc maxc
    else if minc ≥ kMin3BytesUnicode then
      let fsm := AddSameLengthCharacterRange 8 fsm fromS toS minc kMax3BytesUnicode
      AddSameLengthCharacterRange 8 fsm fromS toS kMin4BytesUnicode maxc
    else if minc ≥ kMin2BytesUnicode then
      let fsm := AddSameLengthCharacterRange 8 fsm fromS toS minc kMax2BytesUnicode
      let fsm := AddSameLengthCharacterRange 8 fsm fromS toS kMin3BytesUnicode kMax3BytesUnicode
      AddSameLengthCharacterRange 8 fsm fromS toS kMin4BytesUnicode maxc
    else
      let fsm := AddSameLengthCharacterRange 8 fsm fromS toS minc kMax1ByteUnicode
      let fsm := AddSameLengthCharacterRange 8 fsm fromS toS kMin2BytesUnicode kMax2BytesUnicode
      let fsm := AddSameLengthCharacterRange 8 fsm fromS toS kMin3BytesUnicode kMax3BytesUnicode
      AddSameLengthCharacterRange 8 fsm fromS toS kMin4BytesUnicode maxc

/-- One nondeterministic step of the FSM: all targets of edges from any
current state whose byte range contains b. -/
def fsmStep (f : FSMBuild) (states : List Nat) (b : Nat) : List Nat :=
  f.edges.filterMap (fun e =>
    if e.src ∈ states ∧ e.emin ≤ b ∧ b ≤ e.emax then some e.target else none)

/-- Run the FSM over a byte string. -/
def fsmRun (f : FSMBuild) (states : List Nat) : List Nat → List Nat
  | [] => states
  | b :: rest => fsmRun f (fsmStep f states b) rest

/-- Acceptance between two designated states. -/
def fsmAccepts (f : FSMBuild) (start fin : Nat) (bs : List Nat) : Bool :=
  (fsmRun f [start] bs).contains fin

/-- The two-state FSM (start 0, end 1) that the character-class builder hands
to AddCharacterRange. -/
def baseFsm2 : FSMBuild := { numStates := 2, edges := [] }

/-- The standard UTF-8 encoding of a code point, for stating the claim. -/
def utf8Encode (cp : Nat) : List Nat :=
  if cp ≤ 0x7F then [cp]
  else if cp ≤ 0x7FF then [0xC0 + cp / 64, 0x80 + cp % 64]
  else if cp ≤ 0xFFFF then [0xE0 + cp / 4096, 0x80 + cp / 64 % 64, 0x80 + cp % 64]
  else [0xF0 + cp / 262144, 0x80 + cp / 4096 % 64, 0x80 + cp / 64 % 64, 0x80 + cp % 64]

lemma fsmStep_nil_states (f : FSMBuild) (b : Nat) : fsmStep f [] b = [] := by
  simp [fsmStep]

lemma fsmRun_nil_states (f : FSMBuild) (bs : List Nat) : fsmRun f [] bs = [] := by
  induction bs with
  | nil => rfl
  | cons b rest ih => simp [fsmRun, fsmStep_nil_states, ih]

/-- In the ASCII case the same-length builder adds the single direct edge. -/
lemma addSameLength_ascii (fuel : Nat) (fsm : FSMBuild) (fromS toS mn mx : Nat)
    (h : mx / 256 % 256 = 0) :
    AddSameLengthCharacterRange (fuel + 1) fsm fromS toS mn mx =
      fsm.AddEdge fromS toS (mn % 256) (mx % 256) := by
  simp only [AddSameLengthCharacterRange]
  rw [if_pos h]

/-- The two-state machine with one direct byte-range edge. -/
def singleEdgeFsm (lo hi : Nat) : FSMBuild :=
  { numStates := 2, edges := [{ src := 0, target := 1, emin := lo, emax := hi }] }

/-- For an ASCII range the whole lowering is the single edge [lo, hi]. -/
lemma clampMax_ascii (hi : Nat) (h : hi ≤ 0x7F) : clampMaxUnicode hi = hi := by
  simp only [clampMaxUnicode, kMax1ByteUnicode, kMin2BytesUnicode, kMax2BytesUnicode,
    kMin3BytesUnicode, kMax3BytesUnicode, kMin4BytesUnicode, kMax4BytesUnicode]
  split_ifs <;> omega

lemma clampMin_ascii (lo : Nat) (h : lo ≤ 0x7F) : clampMinUnicode lo = lo := by
  simp only [clampMinUnicode, kMax1ByteUnicode, kMin2BytesUnicode, kMax2BytesUnicode,
    kMin3BytesUnicode, kMax3BytesUnicode, kMin4BytesUnicode, kMax4BytesUnicode]
  split_ifs <;> omega

lemma addCharRange_ascii_eq (lo hi : Nat) (h1 : lo ≤ hi) (h2 : hi ≤ 0x7F) :
    AddCharacterRange baseFsm2 0 1 lo hi = singleEdgeFsm lo hi := by
  have hlo : lo ≤ 0x7F := le_trans h1 h2
  have h8 : (8 : Nat) = 7 + 1 := rfl
  simp only [AddCharacterRange, clampMax_ascii hi h2, clampMin_ascii lo hlo]
  rw [if_pos (by simpa [kMax1ByteUnicode] using h2), h8,
    addSameLength_ascii 7 baseFsm2 0 1 lo hi
      (by rw [Nat.div_eq_of_lt (by omega : hi < 256)])]
  simp [FSMBuild.AddEdge, baseFsm2, singleEdgeFsm,
    Nat.mod_eq_of_lt (show lo < 256 by omega),
    Nat.mod_eq_of_lt (show hi < 256 by omega)]

/-- Acceptance of a single-edge two-state machine. -/
lemma accepts_single_edge (lo hi : Nat) (bs : List Nat) :
    fsmAccepts (singleEdgeFsm lo hi) 0 1 bs = true ↔
      ∃ b, bs = [b] ∧ lo ≤ b ∧ b ≤ hi := by
  match bs with
  | [] => simp [fsmAccepts, fsmRun, singleEdgeFsm]
  | [b] =>
    rcases Decidable.em (lo ≤ b ∧ b ≤ hi) with hc | hc
    · simp [fsmAccepts, fsmRun, fsmStep, singleEdgeFsm, hc.1, hc.2]
    · rw [Decidable.not_and_iff_or_not] at hc
      rcases hc with hc | hc <;>
        simp [fsmAccepts, fsmRun, fsmStep, singleEdgeFsm, hc]
  | b :: c :: rest =>
    constructor
    · intro h
      exfalso
      rcases Decidable.em (lo ≤ b ∧ b ≤ hi) with hc | hc
      · simp [fsmAccepts, fsmRun, fsmStep, singleEdgeFsm, hc.1, hc.2,
          fsmRun_nil_states] at h
      · rw [Decidable.not_and_iff_or_not] at hc
        rcases hc with hc | hc <;>
          simp [fsmAccepts, fsmRun, fsmStep, singleEdgeFsm, hc, fsmRun_nil_states] at h
    · rintro ⟨b', hb, -⟩
      simp at hb

/-- C3 counterexample: the lowering is not UTF-8 exact.  AddCharacterRange
interprets its bounds as packed UTF-8 byte tuples, not code points, so
(i) for the code-point range [0x7F, 0x80] the clamping collapses the range
to the single byte 0x7F and the encoding of U+0080 (C2 80) is rejected;
(ii) the full multi-byte band [kMin2BytesUnicode, kMax4BytesUnicode], as
built by BuildNegativeCharacterClass, accepts the byte sequence C0 80,
which is the UTF-8 encoding of no code point (it is an overlong form). -/
theorem addCharacterRange_unicode_counterexample :
    utf8Encode 0x80 = [0xC2, 0x80] ∧
    fsmAccepts (AddCharacterRange baseFsm2 0 1 0x7F 0x80) 0 1 [0xC2, 0x80] = false ∧
    fsmAccepts (AddCharacterRange baseFsm2 0 1 kMin2BytesUnicode kMax4BytesUnicode)
      0 1 [0xC0, 0x80] = true ∧
    ∀ cp : Nat, utf8Encode cp ≠ [0xC0, 0x80] := by
  refine ⟨by decide, by decide, by decide, ?_⟩
  intro cp h
  rw [utf8Encode] at h
  split_ifs at h with h1 h2 h3
  · simp at h
  · simp only [List.cons.injEq, and_true] at h
    obtain ⟨ha, -⟩ := h
    omega
  · simp at h
  · simp at h

/-- C3: on ASCII ranges (where a code point and its packed byte tuple
coincide) the lowering is exact: the produced FSM accepts precisely the
UTF-8 encodings of the code points lo..hi. -/
theorem addCharacterRange_ascii_exact (lo hi : Nat) (h1 : lo ≤ hi) (h2 : hi ≤ 0x7F)
    (bs : List Nat) :
    fsmAccepts (AddCharacterRange baseFsm2 0 1 lo hi) 0 1 bs = true ↔
      ∃ cp, lo ≤ cp ∧ cp ≤ hi ∧ bs = utf8Encode cp := by
  rw [addCharRange_ascii_eq lo hi h1 h2, accepts_single_edge]
  constructor
  · rintro ⟨b, hbs, hlo, hhi⟩
    refine ⟨b, hlo, hhi, ?_⟩
    rw [hbs, utf8Encode, if_pos (le_trans hhi h2)]
  · rintro ⟨cp, hlo, hhi, hbs⟩
    refine ⟨cp, ?_, hlo, hhi⟩
    rw [hbs, utf8Encode, if_pos (le_trans hhi h2)]

theorem addCharacterRange_ascii_exact_witness :
    (0x30 : Nat) ≤ 0x39 ∧ (0x39 : Nat) ≤ 0x7F ∧
    (fsmAccepts (AddCharacterRange baseFsm2 0 1 0x30 0x39) 0 1 [0x35] = true ↔
      ∃ cp, 0x30 ≤ cp ∧ cp ≤ 0x39 ∧ [0x35] = utf8Encode cp) :=
  ⟨by decide, by decide,
    addCharacterRange_ascii_exact 0x30 0x39 (by decide) (by decide) [0x35]⟩

/-! ### The token mask computer (compiler, GrammarMatcherForTokenMaskCache)

The pushdown matcher behind Advance / IsCompleted / PopLastStates is modeled
as a deterministic transition oracle: `advance st b` is the new state when
Advance(b) succeeds from st (none when Advance returns false), and
`isCompleted st` is IsCompleted.  The same oracle shape serves both the rule
matcher and the matcher restricted to the rule's lookahead assertion
sequence. -/

structure MatcherOracle where
  init : Nat
  advance : Nat → Nat → Option Nat
  isCompleted : Nat → Bool

/-- The inner loop of IsTokenPassLookaheadAssertion for one start position:
advance over the token's suffix from the lookahead start.  `some true` is
case 1 (IsCompleted holds mid-run), `some false` is case 2 (the whole
remaining suffix is consumed without completing; in particular an empty
suffix), `none` is case 3 (Advance fails before the end). -/
def laRunSuffix (L : MatcherOracle) (st : Nat) : List Nat → Option Bool
  | [] => some false
  | b :: rest =>
    match L.advance st b with
    | none => none
    | some st2 =>
      if L.isCompleted st2 then some true
      else laRunSuffix L st2 rest

/-- The outer loop of IsTokenPassLookaheadAssertion: scan the can-reach-end
stack from the top down; at each position i with can_reach_end_stack[i] set,
try the lookahead on the token's suffix from byte i.  Returns the
(accepted, can_reach_end) pair of the source: (true, true) when some run
completes, (true, false) when some run consumes the whole tail without
completing, (false, false) when every start position fails. -/
def laScanFromIdx (L : MatcherOracle) (token : List Nat) (stack : List Bool) :
    Nat → Bool × Bool
  | 0 => (false, false)
  | i + 1 =>
    if stack.getD i false then
      match laRunSuffix L L.init (token.drop i) with
      | some true => (true, true)
      | some false => (true, false)
      | none => laScanFromIdx L token stack i
    else laScanFromIdx L token stack i

/-- GrammarMatcherForTokenMaskCache::IsTokenPassLookaheadAssertion.  When the
rule has no lookahead assertion (lookahead_assertion_id == -1) or the pushed
lookahead state is already completed, it returns {true, true}. -/
def IsTokenPassLookaheadAssertion (hasLookahead : Bool) (L : MatcherOracle)
    (token : List Nat) (stack : List Bool) : Bool × Bool :=
  if !hasLookahead then (true, true)
  else if L.isCompleted L.init then (true, true)
  else laScanFromIdx L token stack stack.length

/-- The byte-consumption loop of GetTokenMaskWithFirstCharacterCheck for one
token (the prev_token == nullptr case: the longest-common-prefix rollback
between consecutive tokens is a sharing optimization and does not change the
per-token outcome).  Returns (accepted, can_reach_end_stack,
can_reach_end_prefix_or_stack, prev_matched_size); both stacks start with
the sentinel false pushed by GetAdaptiveTokenMask. -/
def matchTokenLoop (R : MatcherOracle) (st : Nat) (stack stackOr : List Bool)
    (matched : Nat) : List Nat → Bool × List Bool × List Bool × Nat
  | [] => (true, stack, stackOr, matched)
  | b :: rest =>
    match R.advance st b with
    | none => (false, stack, stackOr, matched)
    | some st2 =>
      let c := R.isCompleted st2
      let o := c || stackOr.getLastD false
      matchTokenLoop R st2 (stack ++ [c]) (stackOr ++ [o]) (matched + 1) rest

inductive TokenClass
  | accepted
  | uncertain
  | rejected
deriving DecidableEq, Repr

/-- The per-token classification of GetTokenMaskWithFirstCharacterCheck
(lines 627-666): run the matcher over the token, then classify using
can_reach_end, prev_matched_size and the lookahead assertion. -/
def classifyTokenForMask (R : MatcherOracle)
    (is_root_rule is_exact_lookahead hasLookahead : Bool) (L : MatcherOracle)
    (token : List Nat) : TokenClass :=
  match matchTokenLoop R R.init [false] [false] 0 token with
  | (accepted, stack, stackOr, prev_matched_size) =>
    let can_reach_end := stackOr.getLastD false
    if accepted then .accepted
    else if can_reach_end && decide (0 < prev_matched_size) then
      let la := IsTokenPassLookaheadAssertion hasLookahead L token stack
      if (!is_root_rule) && la.1 then
        if la.2 || !is_exact_lookahead then .uncertain
        else .accepted
      else .rejected
    else .rejected

structure AdaptiveTokenMask where
  accepted_indices : List Nat
  rejected_indices : List Nat
  uncertain_indices : List Nat
deriving DecidableEq, Repr

/-- GetTokenMaskWithFirstCharacterCheck over the sorted vocabulary:
every token is classified and its index recorded in the matching list.
The first-character prefiltering, trie-subtree skipping, speculative fast
paths and the bitset/indices storage threshold only change how the same
classification is represented or shared, not which class a token gets. -/
def GetTokenMaskWithFirstCharacterCheck (R : MatcherOracle)
    (is_root_rule is_exact_lookahead hasLookahead : Bool) (L : MatcherOracle)
    (vocab : List (List Nat)) : AdaptiveTokenMask :=
  { accepted_indices := vocab.enum.filterMap fun p =>
      if classifyTokenForMask R is_root_rule is_exact_lookahead hasLookahead L p.2 =
          .accepted then some p.1 else none,
    rejected_indices := vocab.enum.filterMap fun p =>
      if classifyTokenForMask R is_root_rule is_exact_lookahead hasLookahead L p.2 =
          .rejected then some p.1 else none,
    uncertain_indices := vocab.enum.filterMap fun p =>
      if classifyTokenForMask R is_root_rule is_exact_lookahead hasLookahead L p.2 =
          .uncertain then some p.1 else none }

/-- AdaptCacheWithLookahead.  For a root state the cached uncertain tokens
are moved to rejected and the loop is skipped, so the adapted uncertain set
is the (empty) tmp_uncertain_indices_.  For a non-root state without a
lookahead the function returns the cache unchanged; the non-root re-matching
loop is abstracted as the adaptNonRoot oracle. -/
def AdaptCacheWithLookahead (is_root_rule hasLookahead : Bool)
    (adaptNonRoot : AdaptiveTokenMask → AdaptiveTokenMask)
    (cache : AdaptiveTokenMask) : AdaptiveTokenMask :=
  if is_root_rule then
    { accepted_indices := cache.accepted_indices,
      rejected_indices := cache.rejected_indices ++ cache.uncertain_indices,
      uncertain_indices := [] }
  else if !hasLookahead then cache
  else adaptNonRoot cache

/-- GetAdaptiveTokenMask (control skeleton, lines 743-803).  The crossing
cache probes are oracles: strongHit is the lookup under the key combining
the rule FSM hash with the lookahead hash and exactness flag (only probed
when the lookahead hash exists), weakHit the lookup under the FSM hash
alone.  A strong hit is returned verbatim; a weak hit is adapted with
AdaptCacheWithLookahead; otherwise the mask is computed directly.  Note
that none of the cache keys involves is_root_rule. -/
def GetAdaptiveTokenMask (R L : MatcherOracle)
    (is_root_rule is_exact_lookahead : Bool)
    (crossing_cache_is_available hasLookahead : Bool)
    (strongHit weakHit : Option AdaptiveTokenMask)
    (adaptNonRoot : AdaptiveTokenMask → AdaptiveTokenMask)
    (vocab : List (List Nat)) : AdaptiveTokenMask :=
  if crossing_cache_is_available then
    match (if hasLookahead then strongHit else none) with
    | some cache => cache
    | none =>
      match weakHit with
      | some cache => AdaptCacheWithLookahead is_root_rule hasLookahead adaptNonRoot cache
      | none =>
        GetTokenMaskWithFirstCharacterCheck R is_root_rule is_exact_lookahead
          hasLookahead L vocab
  else
    GetTokenMaskWithFirstCharacterCheck R is_root_rule is_exact_lookahead
      hasLookahead L vocab

/-- For a root state the per-token classification never yields uncertain:
the uncertain push is guarded by !is_root_rule. -/
lemma classify_root_ne_uncertain (R : MatcherOracle) (e hla : Bool)
    (L : MatcherOracle) (t : List Nat) :
    classifyTokenForMask R true e hla L t ≠ .uncertain := by
  rcases h : matchTokenLoop R R.init [false] [false] 0 t with ⟨acc, stack, stackOr, m⟩
  simp only [classifyTokenForMask, h]
  split_ifs <;> simp_all

lemma filterMap_classify_root_uncertain_nil (R : MatcherOracle) (e hla : Bool)
    (L : MatcherOracle) (l : List (Nat × List Nat)) :
    l.filterMap (fun p =>
      if classifyTokenForMask R true e hla L p.2 = .uncertain then some p.1 else none) =
      [] := by
  induction l with
  | nil => rfl
  | cons a l ih =>
    simp [List.filterMap_cons, if_neg (classify_root_ne_uncertain R e hla L a.2), ih]

def trivialMatcher : MatcherOracle :=
  { init := 0, advance := fun _ _ => none, isCompleted := fun _ => false }

def cachedMaskWithUncertain : AdaptiveTokenMask :=
  { accepted_indices := [], rejected_indices := [], uncertain_indices := [5] }

/-- C2 counterexample: a perfect strong-key crossing-cache hit is returned
verbatim even for a root state.  The strong key (rule FSM hash, lookahead
hash, exactness, state id, tokenizer hash) does not involve is_root_rule,
so an entry cached from a non-root computation — which may carry a
non-empty uncertain set — is handed back for a root state with a lookahead
unchanged, with non-empty uncertain indices. -/
theorem root_uncertain_counterexample :
    (GetAdaptiveTokenMask trivialMatcher trivialMatcher true true true true
      (some cachedMaskWithUncertain) none id [[65]]).uncertain_indices = [5] := rfl

/-- C2: for every parser state of the root rule, the adaptive token mask has
an empty uncertain set whenever the strong crossing-cache probe misses (no
crossing cache, no lookahead hash, or no strong hit): both the direct
computation and the weak-hit adaptation clear uncertain for root states.
Only the verbatim strong-hit path escapes this guarantee. -/
theorem root_uncertain_empty (R L : MatcherOracle) (e avail hla : Bool)
    (strongHit weakHit : Option AdaptiveTokenMask)
    (adaptNonRoot : AdaptiveTokenMask → AdaptiveTokenMask)
    (vocab : List (List Nat))
    (hmiss : avail = false ∨ hla = false ∨ strongHit = none) :
    (GetAdaptiveTokenMask R L true e avail hla strongHit weakHit adaptNonRoot
      vocab).uncertain_indices = [] := by
  have hdirect : (GetTokenMaskWithFirstCharacterCheck R true e hla L
      vocab).uncertain_indices = [] :=
    filterMap_classify_root_uncertain_nil R e hla L vocab.enum
  have hweak : ∀ cache, (AdaptCacheWithLookahead true hla adaptNonRoot
      cache).uncertain_indices = [] := by
    intro cache
    simp [AdaptCacheWithLookahead]
  cases avail with
  | false => simpa [GetAdaptiveTokenMask] using hdirect
  | true =>
    cases hla with
    | false =>
      cases weakHit with
      | none => simpa [GetAdaptiveTokenMask] using hdirect
      | some cache => simpa [GetAdaptiveTokenMask] using hweak cache
    | true =>
      have hnone : strongHit = none := by
        rcases hmiss with h | h | h
        · cases h
        · cases h
        · exact h
      subst hnone
      cases weakHit with
      | none => simpa [GetAdaptiveTokenMask] using hdirect
      | some cache => simpa [GetAdaptiveTokenMask] using hweak cache

theorem root_uncertain_empty_witness :
    ((false : Bool) = false ∨ (true : Bool) = false ∨
      (none : Option AdaptiveTokenMask) = none) ∧
    (GetAdaptiveTokenMask trivialMatcher trivialMatcher true true false true none none
      id [[65]]).uncertain_indices = [] :=
  ⟨Or.inl rfl,
    root_uncertain_empty trivialMatcher trivialMatcher true false true none none id
      [[65]] (Or.inl rfl)⟩

/-- A rule matcher that accepts the byte 97 and can complete there. -/
def c1Rule : MatcherOracle :=
  { init := 0,
    advance := fun st b => if st == 0 && b == 97 then some 1 else none,
    isCompleted := fun st => st == 1 }

/-- A lookahead matcher that consumes the byte 120 without ever completing. -/
def c1LookTail : MatcherOracle :=
  { init := 0,
    advance := fun st b => if st == 0 && b == 120 then some 1 else none,
    isCompleted := fun _ => false }

/-- A lookahead matcher that completes right after consuming the byte 120. -/
def c1LookDone : MatcherOracle :=
  { init := 0,
    advance := fun st b => if st == 0 && b == 120 then some 1 else none,
    isCompleted := fun st => st == 1 }

def c1Token : List Nat := [97, 120]

/-- C1 counterexample: the token 97 120 is rejected at its second byte with
a completion possible after the first byte.  When the lookahead consumes the
remaining tail 120 without completing and the lookahead is exact, the code
classifies the token accepted (the claim says uncertain); when the lookahead
completes on the tail, the code classifies it uncertain even though the
lookahead is exact (the claim says accepted).  The two outcomes are exactly
swapped relative to the claim. -/
theorem tokenMask_lookahead_counterexample :
    matchTokenLoop c1Rule c1Rule.init [false] [false] 0 c1Token =
      (false, [false, true], [false, true], 1) ∧
    laScanFromIdx c1LookTail c1Token [false, true] 2 = (true, false) ∧
    classifyTokenForMask c1Rule false true true c1LookTail c1Token = .accepted ∧
    laScanFromIdx c1LookDone c1Token [false, true] 2 = (true, true) ∧
    classifyTokenForMask c1Rule false true true c1LookDone c1Token = .uncertain :=
  ⟨rfl, rfl, rfl, rfl, rfl⟩

/-- C1: in the token mask computer, for a non-root state of a rule with a
lookahead assertion and a token rejected mid-token whose matched prefix can
complete the rule: if the lookahead run completes, the token is classified
uncertain (even when the lookahead is exact); if the lookahead run consumes
the token's remaining tail without completing and the lookahead is exact,
the token is classified accepted. -/
theorem tokenMask_lookahead_classification
    (R L : MatcherOracle) (is_exact : Bool) (token : List Nat)
    (stack stackOr : List Bool) (m : Nat)
    (hrun : matchTokenLoop R R.init [false] [false] 0 token = (false, stack, stackOr, m))
    (hcre : stackOr.getLastD false = true) (hm : 0 < m)
    (hnc : L.isCompleted L.init = false) :
    (laScanFromIdx L token stack stack.length = (true, true) →
      classifyTokenForMask R false is_exact true L token = .uncertain) ∧
    (laScanFromIdx L token stack stack.length = (true, false) →
      classifyTokenForMask R false true true L token = .accepted) := by
  have hla : IsTokenPassLookaheadAssertion true L token stack =
      laScanFromIdx L token stack stack.length := by
    simp [IsTokenPassLookaheadAssertion, hnc]
  have hm2 : decide (0 < m) = true := decide_eq_true hm
  rw [List.getLastD_eq_getLast?] at hcre
  constructor
  · intro hscan
    simp [classifyTokenForMask, hrun, hcre, hm2, hla, hscan]
  · intro hscan
    simp [classifyTokenForMask, hrun, hcre, hm2, hla, hscan]

theorem tokenMask_lookahead_classification_witness :
    classifyTokenForMask c1Rule false true true c1LookDone c1Token = .uncertain ∧
    classifyTokenForMask c1Rule false true true c1LookTail c1Token = .accepted :=
  ⟨(tokenMask_lookahead_classification c1Rule c1LookDone true c1Token
      [false, true] [false, true] 1 rfl rfl (by decide) rfl).1 rfl,
   (tokenMask_lookahead_classification c1Rule c1LookTail true c1Token
      [false, true] [false, true] 1 rfl rfl (by decide) rfl).2 rfl⟩

end Xgrammar
